import Mathlib

/-!
Verification of the satellite-tile-manager repository.

This file gives a shallow embedding, in Lean 4, of the parts of the
repository relevant to the frozen claims:

* `Geo` — the Web-Mercator tile arithmetic of
  `src/providers/base.py` (`tile_to_bounds`, `coords_to_tile`,
  `bounds_to_tiles`).
* `Cache` — the in-memory LRU tile cache of
  `src/services/http_client.py` (`TileCache.get` / `TileCache.put`).
* `Dedup` — the request deduplicator of
  `src/services/http_client.py` (`RequestDeduplicator.get_or_fetch`).
* `Mgr` — the orchestrator of `src/services/tile_manager.py`
  (`download_region`, `_download_region_from_provider`,
  `_download_tile`).
* `Keyed` — the API-key guard of `src/providers/mapbox.py` and
  `src/providers/bing.py` (`get_tile`).
* `Cmp` — the image comparator of `src/services/comparator.py`
  (`compare`, `_mse`, `_psnr`, `_ssim`, `_histogram_correlation`).

Machine floats of the Python source are modelled by exact rationals;
where the source computes a transcendental quantity the embedding keeps
an exact change of variable (documented at the definition).
-/

namespace Geo

/-- Python's `int(q)` applied to a float: truncation toward zero.
(`src/providers/base.py`, `coords_to_tile`.) -/
def pyint (q : ℚ) : ℤ := if 0 ≤ q then ⌊q⌋ else ⌈q⌉

/-- Python's `range(a, b + 1)` over integers, as a list. -/
def intRange (a b : ℤ) : List ℤ :=
  (List.range (b + 1 - a).toNat).map fun (i : ℕ) => a + (i : ℤ)

/-- `TileProvider.tile_to_bounds` (`src/providers/base.py`, lines 110-135).

Latitude is represented throughout by its Web-Mercator ordinate
`m(lat) = asinh(tan(lat_rad)) / pi`, under which the source's
`lat1 = degrees(atan(sinh(pi * (1 - 2 * y / n))))` becomes the exact
rational `m1 = 1 - 2 * y / n`; the transcendental conversion
`lat ↦ m(lat)` is a bijection and cancels exactly against the inverse
conversion performed by `coords_to_tile`, so the round trip the claims
are about is unchanged by this change of variable.
Returns `(min_lon, min_lat, max_lon, max_lat)` with the two latitudes
as Mercator ordinates. -/
def tile_to_bounds (x y : ℤ) (zoom : ℕ) : ℚ × ℚ × ℚ × ℚ :=
  let n : ℚ := 2 ^ zoom
  let lon1 : ℚ := (x : ℚ) / n * 360 - 180
  let m1 : ℚ := 1 - 2 * (y : ℚ) / n
  let lon2 : ℚ := ((x : ℚ) + 1) / n * 360 - 180
  let m2 : ℚ := 1 - 2 * ((y : ℚ) + 1) / n
  (lon1, m2, lon2, m1)

/-- `TileProvider.coords_to_tile` (`src/providers/base.py`, lines 162-182).
`lon` is the longitude in degrees, `m` the latitude's Mercator ordinate
(see `tile_to_bounds`): the source's
`(1.0 - asinh(tan(lat_rad)) / pi) / 2.0 * n` is exactly
`(1 - m) / 2 * n`. -/
def coords_to_tile (lon m : ℚ) (zoom : ℕ) : ℤ × ℤ :=
  let n : ℚ := 2 ^ zoom
  let x := pyint ((lon + 180) / 360 * n)
  let y := pyint ((1 - m) / 2 * n)
  let ni := pyint n
  (max 0 (min (ni - 1) x), max 0 (min (ni - 1) y))

/-- `TileProvider.bounds_to_tiles` (`src/providers/base.py`, lines 137-160):
`(min_x, max_y) = coords_to_tile(min_lon, min_lat)`,
`(max_x, min_y) = coords_to_tile(max_lon, max_lat)`, then the
x-outer/y-inner double loop over `range(min_x, max_x + 1)` and
`range(min_y, max_y + 1)`. -/
def bounds_to_tiles (minLon minM maxLon maxM : ℚ) (zoom : ℕ) :
    List (ℤ × ℤ) :=
  let p1 := coords_to_tile minLon minM zoom
  let p2 := coords_to_tile maxLon maxM zoom
  (intRange p1.1 p2.1).flatMap fun x => (intRange p2.2 p1.2).map fun y => (x, y)

/-- The tile block `bounds_to_tiles` actually returns on the bounds of tile
`(x, y)`: x from `x` to `min (2^z - 1) (x + 1)`, y likewise. -/
def roundtripBlock (x y : ℤ) (zoom : ℕ) : List (ℤ × ℤ) :=
  (intRange x (min (2 ^ zoom - 1) (x + 1))).flatMap fun a =>
    (intRange y (min (2 ^ zoom - 1) (y + 1))).map fun b => (a, b)

end Geo

namespace Cache

/-- The key built by `TileCache._make_key` (`src/services/http_client.py`,
line 42): the colon-separated string `provider:zoom:x:y`, modelled as the
tuple `(provider, zoom, x, y)`; the string format is injective on these
components, so the tuple is an equivalent key. -/
abbrev Key := String × ℕ × ℤ × ℤ

/-- `CacheEntry` (`src/services/http_client.py`, lines 15-22).
Tile bytes are modelled as a list of byte values. -/
structure Entry where
  data : List ℕ
  contentType : String
  createdAt : ℕ
  size : ℕ
  hits : ℕ
deriving DecidableEq

/-- The mutable state of a `TileCache` (`src/services/http_client.py`,
lines 32-40): the `OrderedDict` is an association list whose head is the
oldest (least recently used) entry; `currentSize` mirrors
`self._current_size`. The `_hits`/`_misses` statistics counters play no
part in any claim and are omitted. Time is an abstract tick counter
passed to `get`/`put` in place of `datetime.utcnow()`. -/
structure TileCache where
  maxSizeBytes : ℕ
  maxEntries : ℕ
  ttl : ℕ
  cache : List (Key × Entry)
  currentSize : ℤ
deriving DecidableEq

/-- Dictionary lookup `self._cache[key]` / `key in self._cache`. -/
def lookup (l : List (Key × Entry)) (k : Key) : Option Entry :=
  (l.find? fun p => p.1 == k).map fun p => p.2

/-- `TileCache._remove_entry` (`src/services/http_client.py`,
lines 95-99). -/
def removeEntry (s : TileCache) (k : Key) : TileCache :=
  match lookup s.cache k with
  | none => s
  | some e =>
    { s with
        cache := s.cache.filter fun p => !(p.1 == k)
        currentSize := s.currentSize - (e.size : ℤ) }

/-- `TileCache.get` (`src/services/http_client.py`, lines 46-66): TTL
check with removal on expiry, then `move_to_end` (move to the
most-recently-used end) and `hits += 1` on a live hit. -/
def get (s : TileCache) (k : Key) (now : ℕ) : Option (List ℕ) × TileCache :=
  match lookup s.cache k with
  | some e =>
    if s.ttl < now - e.createdAt then
      (none, removeEntry s k)
    else
      (some e.data,
        { s with
            cache := (s.cache.filter fun p => !(p.1 == k)) ++
              [(k, { e with hits := e.hits + 1 })] })
  | none => (none, s)

/-- The eviction loop of `TileCache.put` (`src/services/http_client.py`,
lines 79-84): while the new entry would overflow the byte budget or the
entry count is at the cap, remove the oldest entry, stopping if the
cache empties. Each iteration removes the head entry, so the loop runs
at most `len(cache)` times; the fuel argument (instantiated with the
current length by `put`) makes that recursion structural. -/
def evictLoop (size : ℕ) : ℕ → TileCache → TileCache
  | 0, s => s
  | fuel + 1, s =>
    if s.maxSizeBytes < s.currentSize + (size : ℤ) ∨
        s.maxEntries ≤ s.cache.length then
      match s.cache with
      | [] => s
      | (k, _) :: _ => evictLoop size fuel (removeEntry s k)
    else s

/-- `TileCache.put` (`src/services/http_client.py`, lines 68-93). -/
def put (s : TileCache) (k : Key) (data : List ℕ) (now : ℕ)
    (contentType : String) : TileCache :=
  let size := data.length
  let s1 := if (lookup s.cache k).isSome then removeEntry s k else s
  let s2 := evictLoop size s1.cache.length s1
  { s2 with
      cache := s2.cache ++
        [(k, { data := data, contentType := contentType, createdAt := now,
               size := size, hits := 0 })]
      currentSize := s2.currentSize + (size : ℤ) }

/-- Sum of the stored entry sizes. -/
def totalSize (l : List (Key × Entry)) : ℤ :=
  (l.map fun p => (p.2.size : ℤ)).sum

/-- Well-formedness, maintained by every cache operation: the running
size counter agrees with the stored sizes and the dictionary's keys are
distinct. -/
def WF (s : TileCache) : Prop :=
  s.currentSize = totalSize s.cache ∧ (s.cache.map Prod.fst).Nodup

/-- The fresh cache of `TileCache.__init__`
(`max_size_bytes = max_size_mb * 1024 * 1024`). -/
def init (maxSizeMb maxEntries ttlSeconds : ℕ) : TileCache :=
  { maxSizeBytes := maxSizeMb * 1024 * 1024, maxEntries := maxEntries,
    ttl := ttlSeconds, cache := [], currentSize := 0 }

end Cache

namespace Dedup

/-- Result of the deduplicated fetch: the value produced by `fetch_func`
(tile bytes, abstracted to a number) or the exception it raised
(abstracted to its message). -/
inductive FetchRes where
  | ok (v : ℕ)
  | err (e : String)
deriving DecidableEq

/-- The state of a `RequestDeduplicator` (`src/services/http_client.py`,
lines 120-179) together with the surrounding asyncio run: `pending`
mirrors `self._pending` (key to future), `nextFut` allocates future
identities, `spawned` records every `create_task(self._do_fetch(...))` —
that is, every invocation of `fetch_func` — `resolved` records each
future's settled result (`set_result`/`set_exception`), and `waiters`
records which future each caller was handed to await. -/
structure St where
  pending : List (String × ℕ)
  nextFut : ℕ
  spawned : List (String × ℕ)
  resolved : List (ℕ × FetchRes)
  waiters : List (ℕ × ℕ)
deriving DecidableEq

/-- Atomic events of the interleaved execution. `call c k` is the
critical section of `get_or_fetch` (held under `self._lock`,
lines 155-165). `complete k f r` is the body of `_do_fetch`
(lines 170-179): the future `f` for key `k` settles to `r` and the
`finally` block pops `k` from `self._pending`; a caller arriving between
the settle and the pop joins the already-settled future and observes the
same result, so collapsing the two points into one event preserves every
per-key observable the claims mention. -/
inductive Ev where
  | call (c : ℕ) (k : String)
  | complete (k : String) (f : ℕ) (r : FetchRes)

/-- Lookup in the pending map. -/
def plookup (l : List (String × ℕ)) (k : String) : Option ℕ :=
  (l.find? fun p => p.1 == k).map fun p => p.2

/-- Lookup of a future's settled result. -/
def rlookup (l : List (ℕ × FetchRes)) (f : ℕ) : Option FetchRes :=
  (l.find? fun p => p.1 == f).map fun p => p.2

/-- One step of the interleaved execution. The guard on `complete`
states the asyncio facts that only a task that was actually spawned
settles a future and that a future settles once. -/
def step (s : St) : Ev → St
  | .call c k =>
    match plookup s.pending k with
    | some f => { s with waiters := s.waiters ++ [(c, f)] }
    | none =>
      { s with
          pending := s.pending ++ [(k, s.nextFut)]
          nextFut := s.nextFut + 1
          spawned := s.spawned ++ [(k, s.nextFut)]
          waiters := s.waiters ++ [(c, s.nextFut)] }
  | .complete k f r =>
    if (k, f) ∈ s.spawned ∧ rlookup s.resolved f = none then
      { s with
          resolved := s.resolved ++ [(f, r)]
          pending := s.pending.filter fun p => !(p.1 == k) }
    else s

/-- The freshly constructed deduplicator. -/
def init : St := ⟨[], 0, [], [], []⟩

/-- A whole interleaved execution from the fresh state. -/
def run (es : List Ev) : St := es.foldl step init

end Dedup

namespace Mgr

/-- `TileStatus` (`src/db/models.py`, lines 38-47): all six statuses of
the enum. -/
inductive TileStatus where
  | pending
  | downloading
  | downloaded
  | processing
  | ready
  | error
deriving DecidableEq

/-- A `tiles` row (`src/db/models.py`, lines 113-183), restricted to the
columns the orchestrator claims mention; file/geometry/quality metadata
columns are carried by the source but never read by any claim. -/
structure TileRec where
  providerId : ℕ
  regionId : ℕ
  x : ℤ
  y : ℤ
  zoom : ℕ
  status : TileStatus
  errorMessage : Option String
deriving DecidableEq

/-- A `regions` row (`src/db/models.py`, lines 74-110). The two
latitudes are stored as Mercator ordinates, matching `Geo`. -/
structure RegionRec where
  id : ℕ
  minLon : ℚ
  minLatM : ℚ
  maxLon : ℚ
  maxLatM : ℚ
  targetZoom : Option ℕ
  totalTiles : ℕ
  downloadedTiles : ℕ
  isComplete : Bool
deriving DecidableEq

/-- The database visible to the orchestrator. -/
structure DB where
  regions : List RegionRec
  tiles : List TileRec
deriving DecidableEq

/-- Outcome of one `provider.get_tile(x, y, zoom)` call:
`success`, a result-level failure (`result.success == False` with
`result.error`), or a raised exception (caught by `_download_tile`'s
`except` clause). -/
inductive FetchOut where
  | success
  | failure (e : String)
  | exc (m : String)
deriving DecidableEq

/-- The provider oracle: what `get_tile` does on each tile of each
provider (providers are identified by their database id). -/
abbrev Fetch := ℕ → ℤ → ℤ → ℕ → FetchOut

/-- The row filter of `_download_tile`'s query
(`src/services/tile_manager.py`, lines 108-113):
`(provider_id, tile_x, tile_y, zoom)` of the row matches the key. -/
def keyMatch (pid : ℕ) (x y : ℤ) (zoom : ℕ) (t : TileRec) : Bool :=
  t.providerId == pid && t.x == x && t.y == y && t.zoom == zoom

/-- The tile-row lookup of `_download_tile` (`src/services/tile_manager.py`,
lines 106-115): first row matching the key. -/
def findTile (db : DB) (pid : ℕ) (x y : ℤ) (zoom : ℕ) : Option TileRec :=
  db.tiles.find? (keyMatch pid x y zoom)

/-- Mutate-and-commit of the tile row with the given key. -/
def updTile (db : DB) (pid : ℕ) (x y : ℤ) (zoom : ℕ)
    (f : TileRec → TileRec) : DB :=
  { db with
      tiles := db.tiles.map fun t =>
        if keyMatch pid x y zoom t then f t else t }

/-- Commit of the (single) region row being worked on. -/
def setRegion (db : DB) (r : RegionRec) : DB :=
  { db with regions := db.regions.map fun r0 => if r0.id == r.id then r else r0 }

/-- The region query of `download_region` and `verify_coverage`
(`src/services/tile_manager.py`, line 45):
`db.query(Region).filter(Region.id == region_id).first()`. -/
def findRegion (db : DB) (rid : ℕ) : Option RegionRec :=
  db.regions.find? fun r => r.id == rid

/-- Result of one `_download_tile` call: the returned boolean, the
database afterwards, the number of `provider.get_tile` invocations, and
the sequence of statuses committed for the tile (each `self.db.commit()`
that wrote this tile's status). -/
structure TileOut where
  ok : Bool
  db : DB
  fetches : ℕ
  trace : List ((ℕ × ℤ × ℤ × ℕ) × TileStatus)
deriving DecidableEq

/-- `TileManager._download_tile` (`src/services/tile_manager.py`,
lines 95-175): short-circuit on an existing READY row; otherwise commit
DOWNLOADING (updating the existing row or inserting a new one — the
source inserts with `status=TileStatus.DOWNLOADING`), call
`provider.get_tile`, and commit READY on success or ERROR on a
result-level failure or a raised exception. -/
def download_tile (fetch : Fetch) (pid regionId : ℕ) (x y : ℤ) (zoom : ℕ)
    (db : DB) : TileOut :=
  let key := (pid, x, y, zoom)
  let go : DB → TileOut := fun db1 =>
    match fetch pid x y zoom with
    | .success =>
      ⟨true, updTile db1 pid x y zoom (fun t => { t with status := .ready }),
        1, [(key, .downloading), (key, .ready)]⟩
    | .failure e =>
      ⟨false,
        updTile db1 pid x y zoom
          (fun t => { t with status := .error, errorMessage := some e }),
        1, [(key, .downloading), (key, .error)]⟩
    | .exc m =>
      ⟨false,
        updTile db1 pid x y zoom
          (fun t => { t with status := .error, errorMessage := some m }),
        1, [(key, .downloading), (key, .error)]⟩
  match findTile db pid x y zoom with
  | some t =>
    if t.status = .ready then ⟨true, db, 0, []⟩
    else go (updTile db pid x y zoom fun t0 => { t0 with status := .downloading })
  | none =>
    go { db with
          tiles := db.tiles ++
            [{ providerId := pid, regionId := regionId, x := x, y := y,
               zoom := zoom, status := .downloading, errorMessage := none }] }

/-- Result of the per-provider tile pass. -/
structure PassOut where
  succ : ℕ
  db : DB
  fetches : ℕ
  trace : List ((ℕ × ℤ × ℤ × ℕ) × TileStatus)
deriving DecidableEq

/-- The `asyncio.gather` over `_download_tile` tasks
(`src/services/tile_manager.py`, lines 79-91), with
`success_count = sum(1 for r in results if r is True)`. The tasks run
under a semaphore but each touches only its own `(provider, x, y, zoom)`
row, and the tile list holds distinct keys, so the interleaving commutes
and the pass is modelled sequentially. -/
def run_tiles (fetch : Fetch) (pid regionId : ℕ) (zoom : ℕ) :
    List (ℤ × ℤ) → DB → PassOut
  | [], db => ⟨0, db, 0, []⟩
  | (x, y) :: rest, db =>
    let o := download_tile fetch pid regionId x y zoom db
    let r := run_tiles fetch pid regionId zoom rest o.db
    ⟨(if o.ok then 1 else 0) + r.succ, r.db, o.fetches + r.fetches,
      o.trace ++ r.trace⟩

/-- The tile list of a region at a zoom:
`provider.bounds_to_tiles(region.min_lon, region.min_lat,
region.max_lon, region.max_lat, zoom)`. -/
def requiredTiles (region : RegionRec) (zoom : ℕ) : List (ℤ × ℤ) :=
  Geo.bounds_to_tiles region.minLon region.minLatM region.maxLon
    region.maxLatM zoom

/-- Result of `_download_region_from_provider` or of the loop over
providers. -/
structure ProvOut where
  region : RegionRec
  db : DB
  fetches : ℕ
  trace : List ((ℕ × ℤ × ℤ × ℕ) × TileStatus)
deriving DecidableEq

/-- `TileManager._download_region_from_provider`
(`src/services/tile_manager.py`, lines 60-93). Note
`region.total_tiles = len(tiles) * len([provider_name])` — the factor is
the length of the singleton list, i.e. 1 — and
`region.downloaded_tiles = success_count`, an assignment, not an
accumulation. -/
def download_region_from_provider (fetch : Fetch) (region : RegionRec)
    (pid : ℕ) (zoom : ℕ) (db : DB) : ProvOut :=
  let tiles := requiredTiles region zoom
  let region1 := { region with totalTiles := tiles.length * [pid].length }
  let db1 := setRegion db region1
  let p := run_tiles fetch pid region.id zoom tiles db1
  let region2 := { region1 with downloadedTiles := p.succ }
  ⟨region2, setRegion p.db region2, p.fetches, p.trace⟩

/-- The `for provider_name in provider_names` loop of `download_region`
(`src/services/tile_manager.py`, lines 53-54). -/
def provsFold (fetch : Fetch) (zoom : ℕ) :
    List ℕ → RegionRec → DB → ProvOut
  | [], region, db => ⟨region, db, 0, []⟩
  | pid :: rest, region, db =>
    let o := download_region_from_provider fetch region pid zoom db
    let r := provsFold fetch zoom rest o.region o.db
    ⟨r.region, r.db, o.fetches + r.fetches, o.trace ++ r.trace⟩

/-- Result of a completed `download_region` call. -/
structure RunOut where
  db : DB
  fetches : ℕ
  trace : List ((ℕ × ℤ × ℤ × ℕ) × TileStatus)
deriving DecidableEq

/-- `TileManager.download_region` (`src/services/tile_manager.py`,
lines 38-58): region lookup — raising `ValueError` when absent, modelled
as `Except.error` — zoom defaulting
(`zoom = region.target_zoom or 16` when the argument is `None`), the
provider loop, and the final unconditional `region.is_complete = True`. -/
def download_region (fetch : Fetch) (regionId : ℕ) (provs : List ℕ)
    (zoomOpt : Option ℕ) (db : DB) : Except String RunOut :=
  match findRegion db regionId with
  | none => .error "Region not found"
  | some region =>
    let zoom := zoomOpt.getD (region.targetZoom.getD 16)
    let o := provsFold fetch zoom provs region db
    let region2 := { o.region with isComplete := true }
    .ok ⟨setRegion o.db region2, o.fetches, o.trace⟩

/-- Number of READY tile rows in the database. -/
def readyCount (db : DB) : ℕ :=
  db.tiles.countP fun t => t.status == .ready

/-- Whether the tile row with the given key exists and is READY. -/
def tileReady (db : DB) (pid : ℕ) (xy : ℤ × ℤ) (zoom : ℕ) : Bool :=
  match findTile db pid xy.1 xy.2 zoom with
  | some t => t.status == .ready
  | none => false

end Mgr

namespace Keyed

/-- The slice of `TileResult` (`src/providers/base.py`, lines 19-46) the
claim reads: the `success` flag and the `error` string. -/
structure TRes where
  success : Bool
  err : Option String
deriving DecidableEq

/-- Outcome of `download_tile_image` (`src/providers/base.py`,
lines 219-243): `(success, error_message)`; the method catches every
exception, so it always returns. -/
abbrev DownloadOut := Bool × Option String

/-- `MapboxProvider.get_tile` (`src/providers/mapbox.py`, lines 33-71):
the guard `if not self.access_token` — the settings default is the empty
string, which is falsy — returns the configuration error before anything
else; otherwise the download proceeds through the `net` oracle (standing
for `download_tile_image`). The second component counts network
requests. -/
def mapbox_get_tile (accessToken : String) (net : ℤ → ℤ → ℕ → DownloadOut)
    (x y : ℤ) (zoom : ℕ) : TRes × ℕ :=
  if accessToken = "" then
    ({ success := false, err := some "Mapbox access token not configured" }, 0)
  else
    let o := net x y zoom
    ({ success := o.1, err := o.2 }, 1)

/-- `BingMapsProvider.get_tile` (`src/providers/bing.py`, lines 60-98):
same shape as Mapbox with `if not self.api_key`. -/
def bing_get_tile (apiKey : String) (net : ℤ → ℤ → ℕ → DownloadOut)
    (x y : ℤ) (zoom : ℕ) : TRes × ℕ :=
  if apiKey = "" then
    ({ success := false, err := some "Bing Maps API key not configured" }, 0)
  else
    let o := net x y zoom
    ({ success := o.1, err := o.2 }, 1)

end Keyed

namespace Cmp

/-- An RGB pixel: `_load_image` converts every image to 8-bit RGB before
casting to float, so channels are byte values. -/
abbrev Pixel := ℕ × ℕ × ℕ

/-- An image, as the flat list of its pixels: every metric of
`TileComparator` is permutation-invariant in the pixels, so the spatial
arrangement is irrelevant and a flat list is a faithful carrier for
images of equal dimensions. -/
abbrev Img := List Pixel

/-- The flat float array `np.array(img, dtype=np.float64)`: all channel
values of all pixels. -/
def channels (img : Img) : List ℚ :=
  img.flatMap fun p => [(p.1 : ℚ), (p.2.1 : ℚ), (p.2.2 : ℚ)]

/-- `np.mean` of a list. -/
def mean (l : List ℚ) : ℚ := l.sum / (l.length : ℚ)

/-- `TileComparator._mse` (`src/services/comparator.py`, lines 76-78):
`np.mean((img_a - img_b) ** 2)` over images of equal shape. -/
def mse (a b : Img) : ℚ :=
  mean (List.zipWith (fun u v => (u - v) ^ 2) (channels a) (channels b))

/-- `TileComparator._psnr` (`src/services/comparator.py`, lines 80-86):
`float("inf")` (here `⊤`) exactly when the MSE is zero; the finite
branch `20 * log10(255 / sqrt(mse))` is transcendental and its value is
irrelevant to the claims, so it is represented by the uninterpreted
parameter `logTerm` — what matters is that it is a finite float, never
the infinity sentinel. -/
def psnr (logTerm : ℚ → ℚ) (a b : Img) : WithTop ℚ :=
  if mse a b = 0 then ⊤ else ((logTerm (mse a b) : ℚ) : WithTop ℚ)

/-- Grayscale conversion `np.mean(img, axis=2)`. -/
def gray (img : Img) : List ℚ :=
  img.map fun p => ((p.1 : ℚ) + (p.2.1 : ℚ) + (p.2.2 : ℚ)) / 3

/-- Population variance: the source computes `np.std` and then squares
it inside the SSIM formula, so the variance is what the formula
consumes (exactly, in ideal arithmetic). -/
def variance (l : List ℚ) : ℚ :=
  mean (l.map fun u => (u - mean l) ^ 2)

/-- `np.mean((img_a - mu_a) * (img_b - mu_b))`. -/
def covar (la lb : List ℚ) : ℚ :=
  mean (List.zipWith (fun u v => (u - mean la) * (v - mean lb)) la lb)

/-- `c1 = (k1 * 255) ** 2` with `k1 = 0.01`. -/
def c1 : ℚ := (1 / 100 * 255) ^ 2

/-- `c2 = (k2 * 255) ** 2` with `k2 = 0.03`. -/
def c2 : ℚ := (3 / 100 * 255) ^ 2

/-- `TileComparator._ssim` (`src/services/comparator.py`, lines 88-119). -/
def ssim (a b : Img) : ℚ :=
  let ga := gray a
  let gb := gray b
  let muA := mean ga
  let muB := mean gb
  ((2 * muA * muB + c1) * (2 * covar ga gb + c2)) /
    ((muA ^ 2 + muB ^ 2 + c1) * (variance ga + variance gb + c2))

/-- `np.histogram(gray, bins=256, range=(0, 256))`: bin `i` counts the
values in `[i, i + 1)` (the last bin is `[255, 256]`); grayscale values
of byte images lie in `[0, 255]`, so the bin of `u` is `⌊u⌋`. -/
def hist (g : List ℚ) : List ℕ :=
  (List.range 256).map fun (i : ℕ) => g.countP fun u => ⌊u⌋ == (i : ℤ)

/-- Histogram normalisation `hist / hist.sum()`. -/
def nhist (g : List ℚ) : List ℚ :=
  (hist g).map fun (c : ℕ) => (c : ℚ) / ((hist g).sum : ℚ)

/-- Square root on rationals, exact on perfect squares. The source's
`np.sqrt` appears only in the correlation denominator
`sqrt(Sa * Sb)`; on every input the claims touch, the radicand is a
perfect square (`Sa = Sb`), where this function is the exact root, and
the guard `denominator == 0` is equivalent to the radicand being zero
because a positive rational has positive numerator, hence a positive
`ratSqrt`. -/
def ratSqrt (q : ℚ) : ℚ :=
  (Nat.sqrt q.num.toNat : ℚ) / (Nat.sqrt q.den : ℚ)

/-- `TileComparator._histogram_correlation` (`src/services/comparator.py`,
lines 121-154): normalised 256-bin grayscale histograms, their Pearson
numerator and denominator, `0.0` when the denominator is zero. -/
def histogram_correlation (a b : Img) : ℚ :=
  let ha := nhist (gray a)
  let hb := nhist (gray b)
  let ma := mean ha
  let mb := mean hb
  let num := (List.zipWith (fun u v => (u - ma) * (v - mb)) ha hb).sum
  let den := ratSqrt (((ha.map fun u => (u - ma) ^ 2).sum) *
    ((hb.map fun v => (v - mb) ^ 2).sum))
  if den = 0 then 0 else num / den

/-- The comparison record `compare` returns
(`src/services/comparator.py`, lines 47-52). -/
structure CompareResult where
  mseVal : ℚ
  psnrVal : WithTop ℚ
  ssimVal : ℚ
  histCorrVal : ℚ
deriving DecidableEq

/-- `TileComparator.compare` (`src/services/comparator.py`, lines 20-54)
on images of equal dimensions (the claims' hypothesis), where the
`shape` test succeeds and the resize branch is not taken. -/
def compare (logTerm : ℚ → ℚ) (a b : Img) : CompareResult :=
  { mseVal := mse a b
    psnrVal := psnr logTerm a b
    ssimVal := ssim a b
    histCorrVal := histogram_correlation a b }

end Cmp

namespace Geo

theorem pyint_intCast (m : ℤ) : pyint (m : ℚ) = m := by
  unfold pyint
  rcases le_or_lt 0 (m : ℚ) with h | h
  · rw [if_pos h, Int.floor_intCast]
  · rw [if_neg (not_le.mpr h), Int.ceil_intCast]

theorem mem_intRange {a b m : ℤ} : m ∈ intRange a b ↔ a ≤ m ∧ m ≤ b := by
  constructor
  · intro h
    obtain ⟨i, hi, hm⟩ := List.mem_map.mp h
    rw [List.mem_range] at hi
    omega
  · intro h
    refine List.mem_map.mpr ⟨(m - a).toNat, ?_, ?_⟩
    · rw [List.mem_range]
      omega
    · omega

theorem intRange_self (a : ℤ) : intRange a a = [a] := by
  unfold intRange
  rw [show a + 1 - a = 1 by ring]
  simp [List.range_succ]

theorem pyint_pow (z : ℕ) : pyint ((2 : ℚ) ^ z) = 2 ^ z := by
  have h : ((2 : ℚ) ^ z) = ((2 ^ z : ℤ) : ℚ) := by push_cast; ring
  rw [h, pyint_intCast]

/-- `coords_to_tile` applied to the exact corner coordinates of the tile
grid: longitude `u / n * 360 - 180` and Mercator ordinate `1 - 2 v / n`
land in column `u` and row `v`, clamped to `[0, 2 ^ z - 1]`. -/
theorem coords_to_tile_corner (z : ℕ) (u v : ℤ) (lon m : ℚ)
    (hlon : lon = (u : ℚ) / 2 ^ z * 360 - 180)
    (hm : m = 1 - 2 * (v : ℚ) / 2 ^ z) :
    coords_to_tile lon m z =
      (max 0 (min (2 ^ z - 1) u), max 0 (min (2 ^ z - 1) v)) := by
  subst hlon hm
  have hn : ((2 : ℚ) ^ z) ≠ 0 := by positivity
  have h1 : ((u : ℚ) / 2 ^ z * 360 - 180 + 180) / 360 * 2 ^ z = (u : ℚ) := by
    field_simp
    ring
  have h2 : (1 - (1 - 2 * (v : ℚ) / 2 ^ z)) / 2 * 2 ^ z = (v : ℚ) := by
    field_simp
    ring
  unfold coords_to_tile
  dsimp only
  rw [h1, h2, pyint_intCast, pyint_intCast, pyint_pow]

theorem mem_roundtripBlock {x y a b : ℤ} {z : ℕ} :
    (a, b) ∈ roundtripBlock x y z ↔
      (x ≤ a ∧ a ≤ min (2 ^ z - 1) (x + 1)) ∧
        (y ≤ b ∧ b ≤ min (2 ^ z - 1) (y + 1)) := by
  unfold roundtripBlock
  rw [List.mem_flatMap]
  constructor
  · rintro ⟨c, hc, hm⟩
    obtain ⟨d, hd, hcd⟩ := List.mem_map.mp hm
    obtain ⟨rfl, rfl⟩ := Prod.mk.injEq .. ▸ hcd
    exact ⟨mem_intRange.mp hc, mem_intRange.mp hd⟩
  · rintro ⟨ha, hb⟩
    exact ⟨a, mem_intRange.mpr ha,
      List.mem_map.mpr ⟨b, mem_intRange.mpr hb, rfl⟩⟩

end Geo

/-- **C4, counterexample.** At zoom 1, `bounds_to_tiles` applied to the
bounds returned by `tile_to_bounds(0, 0, 1)` returns the four tiles
`(0,0), (0,1), (1,0), (1,1)` — the shared east and south boundary
coordinates fall into the adjacent tiles — and not exactly the single
tile `(0, 0)` the claim asserts. -/
theorem c4_counterexample :
    Geo.bounds_to_tiles (Geo.tile_to_bounds 0 0 1).1
        (Geo.tile_to_bounds 0 0 1).2.1 (Geo.tile_to_bounds 0 0 1).2.2.1
        (Geo.tile_to_bounds 0 0 1).2.2.2 1
      = [(0, 0), (0, 1), (1, 0), (1, 1)] ∧
    Geo.bounds_to_tiles (Geo.tile_to_bounds 0 0 1).1
        (Geo.tile_to_bounds 0 0 1).2.1 (Geo.tile_to_bounds 0 0 1).2.2.1
        (Geo.tile_to_bounds 0 0 1).2.2.2 1
      ≠ [(0, 0)] := by
  have h : Geo.bounds_to_tiles (Geo.tile_to_bounds 0 0 1).1
      (Geo.tile_to_bounds 0 0 1).2.1 (Geo.tile_to_bounds 0 0 1).2.2.1
      (Geo.tile_to_bounds 0 0 1).2.2.2 1 = [(0, 0), (0, 1), (1, 0), (1, 1)] := by
    simp only [Geo.bounds_to_tiles, Geo.tile_to_bounds, Geo.coords_to_tile,
      Geo.pyint]
    norm_num [Geo.intRange]
    decide
  refine ⟨h, ?_⟩
  rw [h]
  decide

/-- **C4, amended.** For `0 ≤ x, y ≤ 2^z - 1`, `bounds_to_tiles` at zoom
`z` applied to the bounding box returned by `tile_to_bounds(x, y, z)`
returns the block of tiles from `(x, y)` to
`(min (2^z - 1) (x + 1), min (2^z - 1) (y + 1))` — the tile itself
together with its east/south neighbours where those exist, because the
shared boundary coordinates land in the adjacent tile. The result always
contains `(x, y)` but is exactly the single tile `(x, y)` only when
`x = y = 2^z - 1`. -/
theorem c4_roundtrip_block (x y : ℤ) (z : ℕ)
    (hx0 : 0 ≤ x) (hx1 : x ≤ 2 ^ z - 1) (hy0 : 0 ≤ y) (hy1 : y ≤ 2 ^ z - 1) :
    Geo.bounds_to_tiles (Geo.tile_to_bounds x y z).1
        (Geo.tile_to_bounds x y z).2.1 (Geo.tile_to_bounds x y z).2.2.1
        (Geo.tile_to_bounds x y z).2.2.2 z
      = Geo.roundtripBlock x y z ∧
    (x, y) ∈ Geo.roundtripBlock x y z ∧
    (Geo.roundtripBlock x y z = [(x, y)] ↔ x = 2 ^ z - 1 ∧ y = 2 ^ z - 1) := by
  have hN : (0 : ℤ) ≤ 2 ^ z - 1 := le_trans hx0 hx1
  have e1 : max 0 (min ((2 : ℤ) ^ z - 1) x) = x := by
    rw [min_eq_right hx1, max_eq_right hx0]
  have e2 : max 0 (min ((2 : ℤ) ^ z - 1) (x + 1)) = min ((2 : ℤ) ^ z - 1) (x + 1) :=
    max_eq_right (le_min hN (by linarith))
  have e3 : max 0 (min ((2 : ℤ) ^ z - 1) y) = y := by
    rw [min_eq_right hy1, max_eq_right hy0]
  have e4 : max 0 (min ((2 : ℤ) ^ z - 1) (y + 1)) = min ((2 : ℤ) ^ z - 1) (y + 1) :=
    max_eq_right (le_min hN (by linarith))
  refine ⟨?_, ?_, ?_, ?_⟩
  · unfold Geo.bounds_to_tiles Geo.tile_to_bounds
    dsimp only
    rw [Geo.coords_to_tile_corner z x (y + 1) _ _ (by push_cast; ring)
        (by push_cast; ring),
      Geo.coords_to_tile_corner z (x + 1) y _ _ (by push_cast; ring)
        (by push_cast; ring)]
    dsimp only
    rw [e1, e2, e3, e4]
    rfl
  · exact Geo.mem_roundtripBlock.mpr
      ⟨⟨le_refl x, le_min hx1 (by linarith)⟩, ⟨le_refl y, le_min hy1 (by linarith)⟩⟩
  · intro h
    constructor
    · by_contra hne
      have hlt : x < 2 ^ z - 1 := lt_of_le_of_ne hx1 hne
      have hmem : (x + 1, y) ∈ Geo.roundtripBlock x y z :=
        Geo.mem_roundtripBlock.mpr
          ⟨⟨by linarith, le_min (by linarith) (le_refl _)⟩,
            ⟨le_refl y, le_min hy1 (by linarith)⟩⟩
      rw [h, List.mem_singleton, Prod.mk.injEq] at hmem
      exact absurd hmem.1 (by linarith)
    · by_contra hne
      have hlt : y < 2 ^ z - 1 := lt_of_le_of_ne hy1 hne
      have hmem : (x, y + 1) ∈ Geo.roundtripBlock x y z :=
        Geo.mem_roundtripBlock.mpr
          ⟨⟨le_refl x, le_min hx1 (by linarith)⟩,
            ⟨by linarith, le_min (by linarith) (le_refl _)⟩⟩
      rw [h, List.mem_singleton, Prod.mk.injEq] at hmem
      exact absurd hmem.2 (by linarith)
  · rintro ⟨hxe, hye⟩
    have m1 : min ((2 : ℤ) ^ z - 1) (x + 1) = x := by
      rw [hxe]
      exact min_eq_left (by linarith)
    have m2 : min ((2 : ℤ) ^ z - 1) (y + 1) = y := by
      rw [hye]
      exact min_eq_left (by linarith)
    unfold Geo.roundtripBlock
    rw [m1, m2, Geo.intRange_self, Geo.intRange_self]
    simp

/-- Witness for `c4_roundtrip_block`, instantiated at tile `(0, 0)`,
zoom 1. -/
theorem c4_roundtrip_block_witness :
    Geo.bounds_to_tiles (Geo.tile_to_bounds 0 0 1).1
        (Geo.tile_to_bounds 0 0 1).2.1 (Geo.tile_to_bounds 0 0 1).2.2.1
        (Geo.tile_to_bounds 0 0 1).2.2.2 1
      = Geo.roundtripBlock 0 0 1 ∧
    ((0 : ℤ), (0 : ℤ)) ∈ Geo.roundtripBlock 0 0 1 ∧
    (Geo.roundtripBlock 0 0 1 = [(0, 0)] ↔
      (0 : ℤ) = 2 ^ 1 - 1 ∧ (0 : ℤ) = 2 ^ 1 - 1) :=
  c4_roundtrip_block 0 0 1 (by decide) (by decide) (by decide) (by decide)

/-- **C7.** For Mapbox and Bing — the API-key-requiring providers — with
an unconfigured (empty) key, and for every tile coordinate, `get_tile`
returns a result with `success = False` and a non-empty error string,
returns normally (the model is a total function), and performs no
network call before returning. -/
theorem c7_unconfigured_key (net netB : ℤ → ℤ → ℕ → Keyed.DownloadOut)
    (x y : ℤ) (zoom : ℕ) :
    ((Keyed.mapbox_get_tile "" net x y zoom).1.success = false ∧
      (Keyed.mapbox_get_tile "" net x y zoom).1.err =
        some "Mapbox access token not configured" ∧
      "Mapbox access token not configured" ≠ "" ∧
      (Keyed.mapbox_get_tile "" net x y zoom).2 = 0) ∧
    ((Keyed.bing_get_tile "" netB x y zoom).1.success = false ∧
      (Keyed.bing_get_tile "" netB x y zoom).1.err =
        some "Bing Maps API key not configured" ∧
      "Bing Maps API key not configured" ≠ "" ∧
      (Keyed.bing_get_tile "" netB x y zoom).2 = 0) := by
  refine ⟨⟨rfl, rfl, ?_, rfl⟩, ⟨rfl, rfl, ?_, rfl⟩⟩ <;> decide

namespace Cache

theorem lookup_eq_none {l : List (Key × Entry)} {k : Key} :
    lookup l k = none ↔ ∀ p ∈ l, p.1 ≠ k := by
  simp [lookup, List.find?_eq_none]

theorem filter_key_eq_self {l : List (Key × Entry)} {k : Key}
    (h : ∀ p ∈ l, p.1 ≠ k) : (l.filter fun p => !(p.1 == k)) = l := by
  rw [List.filter_eq_self]
  intro p hp
  simpa using h p hp

theorem keys_nodup_tail_not_mem {k : Key} {e : Entry}
    {rest : List (Key × Entry)}
    (h : (((k, e) :: rest).map Prod.fst).Nodup) :
    ∀ p ∈ rest, p.1 ≠ k := by
  rw [List.map_cons, List.nodup_cons] at h
  intro p hp he
  exact h.1 (List.mem_map.mpr ⟨p, hp, he⟩)

/-- `_remove_entry` on the oldest key: with distinct keys it removes
exactly the head entry and debits its size. -/
theorem removeEntry_head {s : TileCache} {k : Key} {e : Entry}
    {rest : List (Key × Entry)} (hc : s.cache = (k, e) :: rest)
    (hnd : (s.cache.map Prod.fst).Nodup) :
    removeEntry s k =
      { s with cache := rest, currentSize := s.currentSize - (e.size : ℤ) } := by
  have hrest : ∀ p ∈ rest, p.1 ≠ k := keys_nodup_tail_not_mem (hc ▸ hnd)
  have hfind : lookup s.cache k = some e := by
    rw [hc]
    unfold lookup
    rw [List.find?_cons_of_pos _ (by simp)]
    rfl
  have hfil : (s.cache.filter fun p => !(p.1 == k)) = rest := by
    rw [hc, List.filter_cons]
    have hh : (!((k, e).1 == k)) = false := by simp
    rw [hh]
    simp only [Bool.false_eq_true, if_false]
    exact filter_key_eq_self hrest
  unfold removeEntry
  rw [hfind, hfil]

theorem totalSize_cons (k : Key) (e : Entry) (l : List (Key × Entry)) :
    totalSize ((k, e) :: l) = (e.size : ℤ) + totalSize l := by
  simp [totalSize]

theorem totalSize_filter_key {l : List (Key × Entry)} {k : Key} {e : Entry}
    (hnd : (l.map Prod.fst).Nodup) (hl : lookup l k = some e) :
    totalSize (l.filter fun p => !(p.1 == k)) = totalSize l - (e.size : ℤ) := by
  induction l with
  | nil => simp [lookup] at hl
  | cons hd tl ih =>
    obtain ⟨k0, e0⟩ := hd
    by_cases hk : k0 = k
    · subst hk
      have he : e0 = e := by
        unfold lookup at hl
        rw [List.find?_cons_of_pos _ (by simp)] at hl
        simpa using hl
      subst he
      rw [List.filter_cons]
      have hh : (!((k0, e0).1 == k0)) = false := by simp
      rw [hh]
      simp only [Bool.false_eq_true, if_false]
      rw [filter_key_eq_self (keys_nodup_tail_not_mem hnd), totalSize_cons]
      ring
    · have hl' : lookup tl k = some e := by
        unfold lookup at hl ⊢
        rwa [List.find?_cons_of_neg _ (by simp [hk])] at hl
      have hnd' : (tl.map Prod.fst).Nodup := by
        rw [List.map_cons, List.nodup_cons] at hnd
        exact hnd.2
      rw [List.filter_cons]
      have hh : (!((k0, e0).1 == k)) = true := by simp [hk]
      rw [hh]
      simp only [if_true]
      rw [totalSize_cons, totalSize_cons, ih hnd' hl']
      ring

theorem nodup_filter_key {l : List (Key × Entry)} {k : Key}
    (hnd : (l.map Prod.fst).Nodup) :
    ((l.filter fun p => !(p.1 == k)).map Prod.fst).Nodup := by
  have hsub : List.Sublist (l.filter fun p => !(p.1 == k)) l :=
    List.filter_sublist l
  exact List.Nodup.sublist (hsub.map Prod.fst) hnd

theorem wf_removeEntry (s : TileCache) (k : Key) (h : WF s) :
    WF (removeEntry s k) := by
  obtain ⟨hsz, hnd⟩ := h
  unfold removeEntry
  cases hl : lookup s.cache k with
  | none => exact ⟨hsz, hnd⟩
  | some e =>
    refine ⟨?_, nodup_filter_key hnd⟩
    simp only
    rw [totalSize_filter_key hnd hl, hsz]

theorem removeEntry_fields (s : TileCache) (k : Key) :
    (removeEntry s k).maxSizeBytes = s.maxSizeBytes ∧
    (removeEntry s k).maxEntries = s.maxEntries ∧
    (removeEntry s k).ttl = s.ttl := by
  unfold removeEntry
  cases lookup s.cache k <;> simp

theorem evictLoop_spec (size : ℕ) (fuel : ℕ) :
    ∀ s : TileCache, WF s → s.cache.length ≤ fuel →
      WF (evictLoop size fuel s) ∧
      (evictLoop size fuel s).maxSizeBytes = s.maxSizeBytes ∧
      (evictLoop size fuel s).maxEntries = s.maxEntries ∧
      (evictLoop size fuel s).ttl = s.ttl ∧
      (∃ dropped, s.cache = dropped ++ (evictLoop size fuel s).cache) ∧
      (((evictLoop size fuel s).currentSize + (size : ℤ) ≤
          (s.maxSizeBytes : ℤ) ∧
        (evictLoop size fuel s).cache.length < s.maxEntries) ∨
        (evictLoop size fuel s).cache = []) := by
  induction fuel with
  | zero =>
    intro s hWF hlen
    have hnil : s.cache = [] := List.length_eq_zero.mp (Nat.le_zero.mp hlen)
    have h0 : evictLoop size 0 s = s := rfl
    rw [h0]
    exact ⟨hWF, rfl, rfl, rfl, ⟨[], by simp⟩, Or.inr hnil⟩
  | succ fuel ih =>
    intro s hWF hlen
    by_cases hcond : s.maxSizeBytes < s.currentSize + (size : ℤ) ∨
        s.maxEntries ≤ s.cache.length
    · cases hc : s.cache with
      | nil =>
        have hstep : evictLoop size (fuel + 1) s = s := by
          unfold evictLoop
          rw [if_pos hcond, hc]
        rw [hstep]
        exact ⟨hWF, rfl, rfl, rfl, ⟨[], by simp [hc]⟩, Or.inr hc⟩
      | cons hd tl =>
        obtain ⟨k, e⟩ := hd
        have hre : removeEntry s k =
            { s with cache := tl,
                     currentSize := s.currentSize - (e.size : ℤ) } :=
          removeEntry_head hc hWF.2
        have hstep : evictLoop size (fuel + 1) s =
            evictLoop size fuel (removeEntry s k) := by
          conv_lhs => unfold evictLoop
          rw [if_pos hcond, hc]
        have hWF' : WF { s with
            cache := tl,
            currentSize := s.currentSize - (e.size : ℤ) } := by
          constructor
          · have hthis := hWF.1
            rw [hc, totalSize_cons] at hthis
            simp only
            rw [hthis]
            ring
          · have hthis := hWF.2
            rw [hc, List.map_cons, List.nodup_cons] at hthis
            exact hthis.2
        have hlen' : (removeEntry s k).cache.length ≤ fuel := by
          rw [hre]
          rw [hc] at hlen
          simp only [List.length_cons] at hlen
          simpa using Nat.lt_succ_iff.mp (Nat.lt_succ_of_le hlen)
        obtain ⟨h1, h2, h3, h4, ⟨dropped, hdrop⟩, h6⟩ :=
          ih (removeEntry s k) (by rw [hre]; exact hWF') hlen'
        rw [hstep]
        have hfields : (removeEntry s k).maxSizeBytes = s.maxSizeBytes ∧
            (removeEntry s k).maxEntries = s.maxEntries ∧
            (removeEntry s k).ttl = s.ttl := removeEntry_fields s k
        refine ⟨h1, h2.trans hfields.1, h3.trans hfields.2.1,
          h4.trans hfields.2.2, ⟨(k, e) :: dropped, ?_⟩, ?_⟩
        · have hcache : (removeEntry s k).cache = tl := by rw [hre]
          rw [hcache] at hdrop
          simpa using hdrop
        · rcases h6 with ⟨ha, hb⟩ | hnil
          · exact Or.inl ⟨by rw [← hfields.1]; exact ha,
              by rw [← hfields.2.1]; exact hb⟩
          · exact Or.inr hnil
    · have hstep : evictLoop size (fuel + 1) s = s := by
        unfold evictLoop
        rw [if_neg hcond]
      push_neg at hcond
      rw [hstep]
      exact ⟨hWF, rfl, rfl, rfl, ⟨[], by simp⟩, Or.inl ⟨hcond.1, hcond.2⟩⟩

theorem totalSize_append_single (l : List (Key × Entry)) (k : Key)
    (e : Entry) : totalSize (l ++ [(k, e)]) = totalSize l + (e.size : ℤ) := by
  simp [totalSize]

theorem keys_nodup_append_single {l : List (Key × Entry)} {k : Key}
    {e : Entry} (hnd : (l.map Prod.fst).Nodup) (hk : ∀ p ∈ l, p.1 ≠ k) :
    ((l ++ [(k, e)]).map Prod.fst).Nodup := by
  rw [List.map_append]
  rw [List.nodup_append]
  refine ⟨hnd, by simp, ?_⟩
  intro a ha
  simp only [List.map_cons, List.map_nil, List.mem_singleton]
  obtain ⟨p, hp, rfl⟩ := List.mem_map.mp ha
  exact fun hb => hk p hp (by simpa using hb)

theorem not_key_of_mem_filter {l : List (Key × Entry)} {k : Key} :
    ∀ p ∈ l.filter fun p => !(p.1 == k), p.1 ≠ k := by
  intro p hp
  have hmem := List.of_mem_filter hp
  simpa using hmem

/-- A fresh cache is well-formed. -/
theorem wf_init (maxSizeMb maxEntries ttlSeconds : ℕ) :
    WF (init maxSizeMb maxEntries ttlSeconds) := by
  exact ⟨rfl, List.nodup_nil⟩

/-- `get` preserves well-formedness, for any key and time. -/
theorem wf_get (s : TileCache) (k : Key) (now : ℕ) (h : WF s) :
    WF (get s k now).2 := by
  cases hl : lookup s.cache k with
  | none =>
    have hg : (get s k now).2 = s := by
      unfold get
      rw [hl]
    rw [hg]
    exact h
  | some e =>
    by_cases hexp : s.ttl < now - e.createdAt
    · have hg : (get s k now).2 = removeEntry s k := by
        simp only [get, hl, hexp, if_true]
      rw [hg]
      exact wf_removeEntry s k h
    · have hg : (get s k now).2 =
          { s with cache := (s.cache.filter fun p => !(p.1 == k)) ++
              [(k, { e with hits := e.hits + 1 })] } := by
        simp only [get, hl, hexp, if_false]
      rw [hg]
      refine ⟨?_, ?_⟩
      · simp only
        rw [totalSize_append_single, totalSize_filter_key h.2 hl, h.1]
        simp
      · exact keys_nodup_append_single (nodup_filter_key h.2)
          not_key_of_mem_filter

/-- The key being inserted is absent after the duplicate-removal step of
`put`. -/
theorem no_key_after_dedup (s : TileCache) (k : Key) (h : WF s) :
    ∀ p ∈ (if (lookup s.cache k).isSome then removeEntry s k else s).cache,
      p.1 ≠ k := by
  cases hl : lookup s.cache k with
  | none =>
    simp only [hl, Option.isSome_none, Bool.false_eq_true, if_false]
    intro p hp he
    exact absurd hl (by
      rw [lookup_eq_none]
      intro hall
      exact hall p hp he)
  | some e =>
    simp only [hl, Option.isSome_some, if_true]
    unfold removeEntry
    rw [hl]
    exact not_key_of_mem_filter

/-- `put` preserves well-formedness. -/
theorem wf_put (s : TileCache) (k : Key) (data : List ℕ) (now : ℕ)
    (ct : String) (h : WF s) : WF (put s k data now ct) := by
  have hWF1 : WF (if (lookup s.cache k).isSome then removeEntry s k else s) := by
    by_cases hl : (lookup s.cache k).isSome
    · rw [if_pos hl]
      exact wf_removeEntry s k h
    · rw [if_neg hl]
      exact h
  have hk1 := no_key_after_dedup s k h
  obtain ⟨h1, _, _, _, ⟨dropped, hdrop⟩, _⟩ :=
    evictLoop_spec data.length
      (if (lookup s.cache k).isSome then removeEntry s k else s).cache.length
      (if (lookup s.cache k).isSome then removeEntry s k else s) hWF1 (le_refl _)
  have hk2 : ∀ p ∈ (evictLoop data.length
      (if (lookup s.cache k).isSome then removeEntry s k else s).cache.length
      (if (lookup s.cache k).isSome then removeEntry s k else s)).cache,
      p.1 ≠ k := by
    intro p hp
    exact hk1 p (hdrop ▸ List.mem_append_right dropped hp)
  refine ⟨?_, ?_⟩
  · show _ + _ = totalSize (_ ++ [(k, _)])
    rw [totalSize_append_single, h1.1]
  · exact keys_nodup_append_single h1.2 hk2

end Cache

/-- **C3, counterexample.** A put whose single entry is larger than
`max_size_bytes` leaves the retained byte size above `max_size_bytes`:
on a well-formed empty cache with `max_size_bytes = 10`,
`max_entries = 5`, inserting an 11-byte entry retains 11 bytes — the
eviction loop stops when the cache empties and the entry is inserted
regardless. -/
theorem c3_counterexample :
    (Cache.put ⟨10, 5, 3600, [], 0⟩ ("osm", 1, 2, 3)
        (List.replicate 11 0) 0 "image/png").currentSize = 11 ∧
    ¬((Cache.put ⟨10, 5, 3600, [], 0⟩ ("osm", 1, 2, 3)
        (List.replicate 11 0) 0 "image/png").currentSize
      ≤ ((⟨10, 5, 3600, [], 0⟩ : Cache.TileCache).maxSizeBytes : ℤ)) := by
  constructor <;> decide

/-- **C3, amended.** For a well-formed cache state (as every state
reachable by `put`/`get` from a fresh cache is — `wf_init`, `wf_put`,
`wf_get`), after a `put` whose entry is no larger than `max_size_bytes`
and with `max_entries ≥ 1`, the total retained byte size is at most
`max_size_bytes` and the entry count is at most `max_entries`; the
entries evicted are exactly the least-recently-used ones — a prefix of
the recency order: the retained older entries `kept` form a suffix of
the pre-eviction order and the new entry enters at the most-recent end;
and a `get` of a present, unexpired entry moves it to the most-recently
used position. A put whose single entry exceeds `max_size_bytes`
(excluded by the size hypothesis) evicts everything yet retains that
entry, leaving the size above the maximum — see the counterexample. -/
theorem c3_put_bounds_lru (s : Cache.TileCache) (k : Cache.Key)
    (data : List ℕ) (now : ℕ) (ct : String) (hWF : Cache.WF s)
    (hsize : data.length ≤ s.maxSizeBytes) (hmax : 1 ≤ s.maxEntries) :
    (Cache.put s k data now ct).currentSize ≤ (s.maxSizeBytes : ℤ) ∧
    (Cache.put s k data now ct).cache.length ≤ s.maxEntries ∧
    (∃ dropped kept,
      (if (Cache.lookup s.cache k).isSome then Cache.removeEntry s k
        else s).cache = dropped ++ kept ∧
      (Cache.put s k data now ct).cache = kept ++
        [(k, { data := data, contentType := ct, createdAt := now,
               size := data.length, hits := 0 })]) ∧
    (∀ kg tg e, Cache.lookup s.cache kg = some e →
      ¬(s.ttl < tg - e.createdAt) →
      (Cache.get s kg tg).2.cache =
        (s.cache.filter fun p => !(p.1 == kg)) ++
          [(kg, { e with hits := e.hits + 1 })]) := by
  have hWF1 : Cache.WF
      (if (Cache.lookup s.cache k).isSome then Cache.removeEntry s k
        else s) := by
    by_cases hl : (Cache.lookup s.cache k).isSome
    · rw [if_pos hl]
      exact Cache.wf_removeEntry s k hWF
    · rw [if_neg hl]
      exact hWF
  have hfields1 : (if (Cache.lookup s.cache k).isSome
      then Cache.removeEntry s k else s).maxSizeBytes = s.maxSizeBytes ∧
      (if (Cache.lookup s.cache k).isSome then Cache.removeEntry s k
        else s).maxEntries = s.maxEntries := by
    by_cases hl : (Cache.lookup s.cache k).isSome
    · rw [if_pos hl]
      exact ⟨(Cache.removeEntry_fields s k).1, (Cache.removeEntry_fields s k).2.1⟩
    · rw [if_neg hl]
      exact ⟨rfl, rfl⟩
  obtain ⟨hW2, hmx2, hme2, _, ⟨dropped, hdrop⟩, hpost⟩ :=
    Cache.evictLoop_spec data.length
      (if (Cache.lookup s.cache k).isSome then Cache.removeEntry s k
        else s).cache.length
      (if (Cache.lookup s.cache k).isSome then Cache.removeEntry s k
        else s) hWF1 (le_refl _)
  have hput : Cache.put s k data now ct =
      { Cache.evictLoop data.length
          (if (Cache.lookup s.cache k).isSome then Cache.removeEntry s k
            else s).cache.length
          (if (Cache.lookup s.cache k).isSome then Cache.removeEntry s k
            else s) with
        cache := (Cache.evictLoop data.length
          (if (Cache.lookup s.cache k).isSome then Cache.removeEntry s k
            else s).cache.length
          (if (Cache.lookup s.cache k).isSome then Cache.removeEntry s k
            else s)).cache ++
          [(k, { data := data, contentType := ct, createdAt := now,
                 size := data.length, hits := 0 })]
        currentSize := (Cache.evictLoop data.length
          (if (Cache.lookup s.cache k).isSome then Cache.removeEntry s k
            else s).cache.length
          (if (Cache.lookup s.cache k).isSome then Cache.removeEntry s k
            else s)).currentSize + (data.length : ℤ) } := rfl
  refine ⟨?_, ?_, ?_, ?_⟩
  · rw [hput]
    simp only
    rcases hpost with ⟨ha, _⟩ | hnil
    · calc _ ≤ ((if (Cache.lookup s.cache k).isSome
            then Cache.removeEntry s k else s).maxSizeBytes : ℤ) := ha
        _ = (s.maxSizeBytes : ℤ) := by rw [hfields1.1]
    · have hz := hW2.1
      rw [hnil] at hz
      simp [Cache.totalSize] at hz
      rw [hz]
      simpa using hsize
  · rw [hput]
    simp only [List.length_append, List.length_singleton]
    rcases hpost with ⟨_, hb⟩ | hnil
    · have := hb
      rw [hfields1.2] at this
      omega
    · rw [hnil]
      simpa using hmax
  · exact ⟨dropped, _, hdrop, by rw [hput]⟩
  · intro kg tg e hl hexp
    simp only [Cache.get, hl, hexp, if_false]

/-- Witness for `c3_put_bounds_lru` at a concrete well-formed cache. -/
theorem c3_put_bounds_lru_witness :
    (Cache.put ⟨100, 10, 3600, [], 0⟩ ("naip", 0, 0, 0) [1, 2, 3] 0
        "image/png").currentSize
      ≤ (((⟨100, 10, 3600, [], 0⟩ : Cache.TileCache)).maxSizeBytes : ℤ) ∧
    (Cache.put ⟨100, 10, 3600, [], 0⟩ ("naip", 0, 0, 0) [1, 2, 3] 0
        "image/png").cache.length
      ≤ ((⟨100, 10, 3600, [], 0⟩ : Cache.TileCache)).maxEntries ∧
    (∃ dropped kept,
      (if (Cache.lookup (⟨100, 10, 3600, [], 0⟩ :
            Cache.TileCache).cache ("naip", 0, 0, 0)).isSome
        then Cache.removeEntry ⟨100, 10, 3600, [], 0⟩ ("naip", 0, 0, 0)
        else ⟨100, 10, 3600, [], 0⟩).cache = dropped ++ kept ∧
      (Cache.put ⟨100, 10, 3600, [], 0⟩ ("naip", 0, 0, 0) [1, 2, 3] 0
          "image/png").cache = kept ++
        [(("naip", 0, 0, 0),
          { data := [1, 2, 3], contentType := "image/png", createdAt := 0,
            size := [1, 2, 3].length, hits := 0 })]) ∧
    (∀ kg tg e,
      Cache.lookup (⟨100, 10, 3600, [], 0⟩ : Cache.TileCache).cache kg
        = some e →
      ¬((⟨100, 10, 3600, [], 0⟩ : Cache.TileCache).ttl < tg - e.createdAt) →
      (Cache.get ⟨100, 10, 3600, [], 0⟩ kg tg).2.cache =
        ((⟨100, 10, 3600, [], 0⟩ : Cache.TileCache).cache.filter
          fun p => !(p.1 == kg)) ++
          [(kg, { e with hits := e.hits + 1 })]) :=
  c3_put_bounds_lru ⟨100, 10, 3600, [], 0⟩ ("naip", 0, 0, 0) [1, 2, 3] 0
    "image/png" ⟨rfl, List.nodup_nil⟩ (by decide) (by decide)

namespace Dedup

/-- A settled future stays settled with the same result across any step. -/
theorem rlookup_step_mono (s : St) (ev : Ev) {f : ℕ} {r : FetchRes}
    (h : rlookup s.resolved f = some r) :
    rlookup (step s ev).resolved f = some r := by
  cases ev with
  | call c k =>
    cases hp : plookup s.pending k with
    | none => simpa [step, hp] using h
    | some f2 => simpa [step, hp] using h
  | complete k g r2 =>
    by_cases hg : (k, g) ∈ s.spawned ∧ rlookup s.resolved g = none
    · have hstep : (step s (.complete k g r2)).resolved =
          s.resolved ++ [(g, r2)] := by
        simp only [step, if_pos hg]
      rw [hstep]
      have hfg : (s.resolved.find? fun p => p.1 == f).isSome := by
        unfold rlookup at h
        cases hfind : s.resolved.find? fun p => p.1 == f with
        | none => rw [hfind] at h; simp at h
        | some p => simp [hfind]
      unfold rlookup at h ⊢
      simp only [List.find?_append]
      cases hfind : s.resolved.find? fun p => p.1 == f with
      | none => rw [hfind] at hfg; simp at hfg
      | some p =>
        rw [hfind] at h
        simpa [Option.or] using h
    · have hstep : (step s (.complete k g r2)).resolved = s.resolved := by
        simp only [step, if_neg hg]
      rw [hstep]
      exact h

/-- A settled future stays settled with the same result across any run
continuation. -/
theorem rlookup_run_mono (es es2 : List Ev) {f : ℕ} {r : FetchRes}
    (h : rlookup (run es).resolved f = some r) :
    rlookup (run (es ++ es2)).resolved f = some r := by
  unfold run
  rw [List.foldl_append]
  induction es2 generalizing es with
  | nil => exact h
  | cons ev rest ih =>
    rw [List.foldl_cons]
    have h2 : rlookup (step (run es) ev).resolved f = some r :=
      rlookup_step_mono (run es) ev h
    have := ih (es ++ [ev]) (by
      unfold run
      rw [List.foldl_append]
      simpa using h2)
    unfold run at this
    rw [List.foldl_append] at this
    simpa using this

theorem plookup_filter_none (l : List (String × ℕ)) (k : String) :
    plookup (l.filter fun p => !(p.1 == k)) k = none := by
  unfold plookup
  rw [List.find?_eq_none.mpr]
  · rfl
  · intro p hp
    simpa using List.of_mem_filter hp

/-- **C2.** Request deduplication, over every interleaved execution
`es` of `get_or_fetch` callers and fetch completions (state
`s = run es`):
(join) a caller arriving while key `k` is in flight is handed the
pending future `f` and spawns no new fetch — so for N concurrent callers
on one key exactly the first spawns `fetch_func`, one invocation in
total;
(spawn) a caller arriving while `k` is not in flight spawns exactly one
new fetch task and awaits the new future;
(same result) a future settles at most once: once settled its result is
unchanged by any continuation of the run, so every caller handed that
future — all N concurrent callers — observes that same value or that
same propagated exception;
(retry) when the fetch for `k` settles — in particular when it fails —
the key is removed from in-flight tracking, so a subsequent caller takes
the (spawn) branch and invokes `fetch_func` afresh: no negative
caching. -/
theorem c2_dedup_once_shared (es : List Ev) :
    (∀ c k f, plookup (run es).pending k = some f →
      (step (run es) (.call c k)).spawned = (run es).spawned ∧
      (step (run es) (.call c k)).waiters = (run es).waiters ++ [(c, f)]) ∧
    (∀ c k, plookup (run es).pending k = none →
      (step (run es) (.call c k)).spawned =
        (run es).spawned ++ [(k, (run es).nextFut)] ∧
      (step (run es) (.call c k)).waiters =
        (run es).waiters ++ [(c, (run es).nextFut)]) ∧
    (∀ f r, rlookup (run es).resolved f = some r →
      ∀ es2, rlookup (run (es ++ es2)).resolved f = some r) ∧
    (∀ k f r, (k, f) ∈ (run es).spawned →
      rlookup (run es).resolved f = none →
      plookup (step (run es) (.complete k f r)).pending k = none) := by
  refine ⟨?_, ?_, ?_, ?_⟩
  · intro c k f hp
    constructor <;> simp only [step, hp]
  · intro c k hp
    constructor <;> simp only [step, hp]
  · intro f r h es2
    exact rlookup_run_mono es es2 h
  · intro k f r hsp hun
    have hstep : (step (run es) (.complete k f r)).pending =
        (run es).pending.filter fun p => !(p.1 == k) := by
      simp only [step, if_pos (And.intro hsp hun)]
    rw [hstep]
    exact plookup_filter_none _ k

/-- Witness for `c2_dedup_once_shared` on the concrete run in which
caller 0 spawns the fetch for key `"a"`, caller 1 joins it, and the
fetch then fails. -/
theorem c2_dedup_once_shared_witness :
    (step (run [.call 0 "a", .call 1 "a"]) (.call 2 "a")).spawned =
      (run [.call 0 "a", .call 1 "a"]).spawned ∧
    (step (run [.call 0 "a", .call 1 "a"]) (.call 2 "a")).waiters =
      (run [.call 0 "a", .call 1 "a"]).waiters ++ [(2, 0)] ∧
    rlookup (run ([.call 0 "a", .call 1 "a", .complete "a" 0 (.err "boom")]
        ++ [.call 3 "a"])).resolved 0 = some (.err "boom") ∧
    plookup (step (run [.call 0 "a", .call 1 "a"])
      (.complete "a" 0 (.err "boom"))).pending "a" = none := by
  obtain ⟨hjoin, hspawn, hmono, hpop⟩ :=
    c2_dedup_once_shared [.call 0 "a", .call 1 "a"]
  refine ⟨(hjoin 2 "a" 0 (by decide)).1, (hjoin 2 "a" 0 (by decide)).2,
    ?_, hpop "a" 0 (.err "boom") (by decide) (by decide)⟩
  obtain ⟨_, _, hmono3, _⟩ :=
    c2_dedup_once_shared [.call 0 "a", .call 1 "a", .complete "a" 0 (.err "boom")]
  exact hmono3 0 (.err "boom") (by decide) [.call 3 "a"]

end Dedup

namespace Mgr

theorem keyMatch_iff {pid : ℕ} {x y : ℤ} {zoom : ℕ} {t : TileRec} :
    keyMatch pid x y zoom t = true ↔
      t.providerId = pid ∧ t.x = x ∧ t.y = y ∧ t.zoom = zoom := by
  simp [keyMatch, and_assoc]

theorem find?_map_upd_ne (l : List TileRec) (pid : ℕ) (x y : ℤ) (zoom : ℕ)
    (f : TileRec → TileRec)
    (hf : ∀ p a b z t, keyMatch p a b z (f t) = keyMatch p a b z t)
    (pid' : ℕ) (x' y' : ℤ) (zoom' : ℕ)
    (hne : ¬(pid' = pid ∧ x' = x ∧ y' = y ∧ zoom' = zoom)) :
    ((l.map fun t => if keyMatch pid x y zoom t then f t else t).find?
      (keyMatch pid' x' y' zoom')) = l.find? (keyMatch pid' x' y' zoom') := by
  induction l with
  | nil => rfl
  | cons t rest ih =>
    rw [List.map_cons, List.find?_cons, List.find?_cons]
    by_cases hk' : keyMatch pid' x' y' zoom' t = true
    · have hk : keyMatch pid x y zoom t = false := by
        by_contra hcon
        rw [Bool.not_eq_false] at hcon
        obtain ⟨h1, h2, h3, h4⟩ := keyMatch_iff.mp hcon
        obtain ⟨g1, g2, g3, g4⟩ := keyMatch_iff.mp hk'
        exact hne ⟨g1.symm.trans h1, g2.symm.trans h2, g3.symm.trans h3,
          g4.symm.trans h4⟩
      rw [hk]
      simp only [Bool.false_eq_true, if_false]
      rw [hk']
    · by_cases hk : keyMatch pid x y zoom t = true
      · rw [hk]
        simp only [if_true]
        rw [hf, Bool.eq_false_iff.mpr hk']
        exact ih
      · rw [Bool.eq_false_iff.mpr hk]
        simp only [Bool.false_eq_true, if_false]
        rw [Bool.eq_false_iff.mpr hk']
        exact ih

theorem find?_map_upd_same (l : List TileRec) (pid : ℕ) (x y : ℤ) (zoom : ℕ)
    (f : TileRec → TileRec)
    (hf : ∀ p a b z t, keyMatch p a b z (f t) = keyMatch p a b z t)
    {t : TileRec} (hfind : l.find? (keyMatch pid x y zoom) = some t) :
    ((l.map fun u => if keyMatch pid x y zoom u then f u else u).find?
      (keyMatch pid x y zoom)) = some (f t) := by
  induction l with
  | nil => simp at hfind
  | cons u rest ih =>
    rw [List.map_cons, List.find?_cons]
    rw [List.find?_cons] at hfind
    by_cases hk : keyMatch pid x y zoom u = true
    · rw [hk] at hfind
      simp only [if_true] at hfind ⊢
      rw [hk]
      simp only [if_true]
      rw [hf]
      rw [hk]
      simp only [Option.some.injEq] at hfind
      rw [hfind]
    · rw [Bool.eq_false_iff.mpr hk] at hfind
      simp only [Bool.false_eq_true, if_false] at hfind ⊢
      rw [Bool.eq_false_iff.mpr hk]
      simp only [Bool.false_eq_true, if_false]
      rw [Bool.eq_false_iff.mpr hk]
      exact ih hfind

theorem findTile_updTile_ne (db : DB) (pid : ℕ) (x y : ℤ) (zoom : ℕ)
    (f : TileRec → TileRec)
    (hf : ∀ p a b z t, keyMatch p a b z (f t) = keyMatch p a b z t)
    (pid' : ℕ) (x' y' : ℤ) (zoom' : ℕ)
    (hne : ¬(pid' = pid ∧ x' = x ∧ y' = y ∧ zoom' = zoom)) :
    findTile (updTile db pid x y zoom f) pid' x' y' zoom' =
      findTile db pid' x' y' zoom' :=
  find?_map_upd_ne db.tiles pid x y zoom f hf pid' x' y' zoom' hne

theorem findTile_updTile_same (db : DB) (pid : ℕ) (x y : ℤ) (zoom : ℕ)
    (f : TileRec → TileRec)
    (hf : ∀ p a b z t, keyMatch p a b z (f t) = keyMatch p a b z t)
    {t : TileRec} (hfind : findTile db pid x y zoom = some t) :
    findTile (updTile db pid x y zoom f) pid x y zoom = some (f t) :=
  find?_map_upd_same db.tiles pid x y zoom f hf hfind

end Mgr

namespace Mgr

theorem updTile_regions (db : DB) (pid : ℕ) (x y : ℤ) (zoom : ℕ)
    (f : TileRec → TileRec) : (updTile db pid x y zoom f).regions = db.regions :=
  rfl

theorem setRegion_tiles (db : DB) (r : RegionRec) :
    (setRegion db r).tiles = db.tiles := rfl

theorem findTile_setRegion (db : DB) (r : RegionRec) (pid : ℕ) (x y : ℤ)
    (zoom : ℕ) : findTile (setRegion db r) pid x y zoom =
      findTile db pid x y zoom := rfl

/-- `_download_tile` on a tile whose row exists and is READY: the
short-circuit (lines 117-118): returns `True`, touches nothing, fetches
nothing, commits nothing. -/
theorem download_tile_ready (fetch : Fetch) (pid rid : ℕ) (x y : ℤ)
    (zoom : ℕ) (db : DB) {t : TileRec}
    (hfind : findTile db pid x y zoom = some t)
    (ht : t.status = .ready) :
    download_tile fetch pid rid x y zoom db = ⟨true, db, 0, []⟩ := by
  simp only [download_tile, hfind]
  rw [if_pos ht]

/-- `_download_tile` on a tile that is missing or not READY: one
`get_tile` invocation; the commit trace is DOWNLOADING then READY or
ERROR; the row afterwards exists with exactly that final status (a
missing row is inserted with status DOWNLOADING); the returned boolean
is `True` exactly on fetch success; and no other tile row or any region
row is touched. -/
theorem download_tile_not_ready (fetch : Fetch) (pid rid : ℕ) (x y : ℤ)
    (zoom : ℕ) (db : DB)
    (hnr : ∀ t, findTile db pid x y zoom = some t → ¬ t.status = .ready) :
    (download_tile fetch pid rid x y zoom db).fetches = 1 ∧
    (download_tile fetch pid rid x y zoom db).trace =
      [((pid, x, y, zoom), .downloading),
       ((pid, x, y, zoom),
        if (download_tile fetch pid rid x y zoom db).ok then .ready
        else .error)] ∧
    (∃ t, findTile (download_tile fetch pid rid x y zoom db).db pid x y zoom
        = some t ∧
      t.status = (if (download_tile fetch pid rid x y zoom db).ok then .ready
        else .error)) ∧
    ((download_tile fetch pid rid x y zoom db).ok = true ↔
      fetch pid x y zoom = .success) ∧
    (∀ pid' x' y' zoom', ¬(pid' = pid ∧ x' = x ∧ y' = y ∧ zoom' = zoom) →
      findTile (download_tile fetch pid rid x y zoom db).db pid' x' y' zoom'
        = findTile db pid' x' y' zoom') ∧
    (download_tile fetch pid rid x y zoom db).db.regions = db.regions := by
  have hpres : ∀ (st : TileStatus) (msg : Option String) (p : ℕ) (a b : ℤ)
      (z : ℕ) (t : TileRec),
      keyMatch p a b z { t with status := st, errorMessage := msg } =
        keyMatch p a b z t := fun _ _ _ _ _ _ _ => rfl
  have hpres2 : ∀ (st : TileStatus) (p : ℕ) (a b : ℤ) (z : ℕ) (t : TileRec),
      keyMatch p a b z { t with status := st } = keyMatch p a b z t :=
    fun _ _ _ _ _ _ => rfl
  cases hfind : findTile db pid x y zoom with
  | some t =>
    have ht : ¬ t.status = .ready := hnr t hfind
    have hdb1 : findTile (updTile db pid x y zoom
        fun t0 => { t0 with status := .downloading }) pid x y zoom =
        some { t with status := .downloading } :=
      findTile_updTile_same db pid x y zoom _ (hpres2 .downloading) hfind
    cases hfetch : fetch pid x y zoom with
    | success =>
      have hdt : download_tile fetch pid rid x y zoom db =
          ⟨true, updTile (updTile db pid x y zoom
              fun t0 => { t0 with status := .downloading }) pid x y zoom
              (fun t0 => { t0 with status := .ready }),
            1, [((pid, x, y, zoom), .downloading), ((pid, x, y, zoom), .ready)]⟩ := by
        simp only [download_tile, hfind, if_neg ht, hfetch]
      rw [hdt]
      refine ⟨rfl, rfl, ⟨{ { t with status := .downloading } with status := .ready },
        ?_, rfl⟩, by simp [hfetch], ?_, rfl⟩
      · exact findTile_updTile_same _ pid x y zoom _ (hpres2 .ready) hdb1
      · intro pid' x' y' zoom' hne
        rw [findTile_updTile_ne _ pid x y zoom _ (hpres2 .ready) pid' x' y' zoom' hne,
          findTile_updTile_ne _ pid x y zoom _ (hpres2 .downloading) pid' x' y' zoom' hne]
    | failure e =>
      have hdt : download_tile fetch pid rid x y zoom db =
          ⟨false, updTile (updTile db pid x y zoom
              fun t0 => { t0 with status := .downloading }) pid x y zoom
              (fun t0 => { t0 with status := .error, errorMessage := some e }),
            1, [((pid, x, y, zoom), .downloading), ((pid, x, y, zoom), .error)]⟩ := by
        simp only [download_tile, hfind, if_neg ht, hfetch]
      rw [hdt]
      refine ⟨rfl, rfl, ⟨{ { t with status := .downloading } with
          status := .error, errorMessage := some e }, ?_, rfl⟩,
        by simp [hfetch], ?_, rfl⟩
      · exact findTile_updTile_same _ pid x y zoom _ (hpres .error (some e)) hdb1
      · intro pid' x' y' zoom' hne
        rw [findTile_updTile_ne _ pid x y zoom _ (hpres .error (some e)) pid' x' y' zoom' hne,
          findTile_updTile_ne _ pid x y zoom _ (hpres2 .downloading) pid' x' y' zoom' hne]
    | exc m =>
      have hdt : download_tile fetch pid rid x y zoom db =
          ⟨false, updTile (updTile db pid x y zoom
              fun t0 => { t0 with status := .downloading }) pid x y zoom
              (fun t0 => { t0 with status := .error, errorMessage := some m }),
            1, [((pid, x, y, zoom), .downloading), ((pid, x, y, zoom), .error)]⟩ := by
        simp only [download_tile, hfind, if_neg ht, hfetch]
      rw [hdt]
      refine ⟨rfl, rfl, ⟨{ { t with status := .downloading } with
          status := .error, errorMessage := some m }, ?_, rfl⟩,
        by simp [hfetch], ?_, rfl⟩
      · exact findTile_updTile_same _ pid x y zoom _ (hpres .error (some m)) hdb1
      · intro pid' x' y' zoom' hne
        rw [findTile_updTile_ne _ pid x y zoom _ (hpres .error (some m)) pid' x' y' zoom' hne,
          findTile_updTile_ne _ pid x y zoom _ (hpres2 .downloading) pid' x' y' zoom' hne]
  | none =>
    have hins : findTile
        { db with tiles := db.tiles ++
          [{ providerId := pid, regionId := rid, x := x, y := y, zoom := zoom,
             status := .downloading, errorMessage := none }] } pid x y zoom =
        some { providerId := pid, regionId := rid, x := x, y := y,
               zoom := zoom, status := .downloading, errorMessage := none } := by
      unfold findTile at hfind ⊢
      simp only [List.find?_append, hfind, Option.none_or]
      simp [keyMatch]
    have hinsne : ∀ pid' x' y' zoom',
        ¬(pid' = pid ∧ x' = x ∧ y' = y ∧ zoom' = zoom) →
        findTile { db with tiles := db.tiles ++
          [{ providerId := pid, regionId := rid, x := x, y := y, zoom := zoom,
             status := .downloading, errorMessage := none }] } pid' x' y' zoom'
          = findTile db pid' x' y' zoom' := by
      intro pid' x' y' zoom' hne
      unfold findTile
      simp only [List.find?_append]
      have hnew : (List.find? (keyMatch pid' x' y' zoom')
          [{ providerId := pid, regionId := rid, x := x, y := y, zoom := zoom,
             status := .downloading, errorMessage := none }]) = none := by
        rw [List.find?_eq_none]
        intro a ha
        rw [List.mem_singleton] at ha
        subst ha
        intro hcon
        obtain ⟨h1, h2, h3, h4⟩ := keyMatch_iff.mp hcon
        exact hne ⟨h1.symm, h2.symm, h3.symm, h4.symm⟩
      rw [hnew, Option.or_none]
    cases hfetch : fetch pid x y zoom with
    | success =>
      have hdt : download_tile fetch pid rid x y zoom db =
          ⟨true, updTile { db with tiles := db.tiles ++
              [{ providerId := pid, regionId := rid, x := x, y := y,
                 zoom := zoom, status := .downloading, errorMessage := none }] }
              pid x y zoom (fun t0 => { t0 with status := .ready }),
            1, [((pid, x, y, zoom), .downloading), ((pid, x, y, zoom), .ready)]⟩ := by
        simp only [download_tile, hfind, hfetch]
      rw [hdt]
      refine ⟨rfl, rfl, ⟨_, findTile_updTile_same _ pid x y zoom _
        (hpres2 .ready) hins, rfl⟩, by simp [hfetch], ?_, rfl⟩
      intro pid' x' y' zoom' hne
      rw [findTile_updTile_ne _ pid x y zoom _ (hpres2 .ready) pid' x' y' zoom' hne,
        hinsne pid' x' y' zoom' hne]
    | failure e =>
      have hdt : download_tile fetch pid rid x y zoom db =
          ⟨false, updTile { db with tiles := db.tiles ++
              [{ providerId := pid, regionId := rid, x := x, y := y,
                 zoom := zoom, status := .downloading, errorMessage := none }] }
              pid x y zoom
              (fun t0 => { t0 with status := .error, errorMessage := some e }),
            1, [((pid, x, y, zoom), .downloading), ((pid, x, y, zoom), .error)]⟩ := by
        simp only [download_tile, hfind, hfetch]
      rw [hdt]
      refine ⟨rfl, rfl, ⟨_, findTile_updTile_same _ pid x y zoom _
        (hpres .error (some e)) hins, rfl⟩, by simp [hfetch], ?_, rfl⟩
      intro pid' x' y' zoom' hne
      rw [findTile_updTile_ne _ pid x y zoom _ (hpres .error (some e)) pid' x' y' zoom' hne,
        hinsne pid' x' y' zoom' hne]
    | exc m =>
      have hdt : download_tile fetch pid rid x y zoom db =
          ⟨false, updTile { db with tiles := db.tiles ++
              [{ providerId := pid, regionId := rid, x := x, y := y,
                 zoom := zoom, status := .downloading, errorMessage := none }] }
              pid x y zoom
              (fun t0 => { t0 with status := .error, errorMessage := some m }),
            1, [((pid, x, y, zoom), .downloading), ((pid, x, y, zoom), .error)]⟩ := by
        simp only [download_tile, hfind, hfetch]
      rw [hdt]
      refine ⟨rfl, rfl, ⟨_, findTile_updTile_same _ pid x y zoom _
        (hpres .error (some m)) hins, rfl⟩, by simp [hfetch], ?_, rfl⟩
      intro pid' x' y' zoom' hne
      rw [findTile_updTile_ne _ pid x y zoom _ (hpres .error (some m)) pid' x' y' zoom' hne,
        hinsne pid' x' y' zoom' hne]

end Mgr

namespace Mgr

/-- `_download_tile` never touches another tile row, nor any region row. -/
theorem download_tile_frame (fetch : Fetch) (pid rid : ℕ) (x y : ℤ)
    (zoom : ℕ) (db : DB) (pid' : ℕ) (x' y' : ℤ) (zoom' : ℕ)
    (hne : ¬(pid' = pid ∧ x' = x ∧ y' = y ∧ zoom' = zoom)) :
    findTile (download_tile fetch pid rid x y zoom db).db pid' x' y' zoom'
      = findTile db pid' x' y' zoom' ∧
    (download_tile fetch pid rid x y zoom db).db.regions = db.regions := by
  by_cases hr : ∃ t, findTile db pid x y zoom = some t ∧ t.status = .ready
  · obtain ⟨t, hf, ht⟩ := hr
    rw [download_tile_ready fetch pid rid x y zoom db hf ht]
    exact ⟨rfl, rfl⟩
  · have hnr : ∀ t, findTile db pid x y zoom = some t → ¬ t.status = .ready :=
      fun t hf ht => hr ⟨t, hf, ht⟩
    obtain ⟨_, _, _, _, hframe, hreg⟩ :=
      download_tile_not_ready fetch pid rid x y zoom db hnr
    exact ⟨hframe pid' x' y' zoom' hne, hreg⟩

/-- The boolean `_download_tile` returns equals the final READY-ness of
its tile row. -/
theorem download_tile_ok_eq (fetch : Fetch) (pid rid : ℕ) (x y : ℤ)
    (zoom : ℕ) (db : DB) :
    (download_tile fetch pid rid x y zoom db).ok =
      tileReady (download_tile fetch pid rid x y zoom db).db pid (x, y) zoom := by
  by_cases hr : ∃ t, findTile db pid x y zoom = some t ∧ t.status = .ready
  · obtain ⟨t, hf, ht⟩ := hr
    rw [download_tile_ready fetch pid rid x y zoom db hf ht]
    unfold tileReady
    simp only [hf]
    simp [ht]
  · have hnr : ∀ t, findTile db pid x y zoom = some t → ¬ t.status = .ready :=
      fun t hf ht => hr ⟨t, hf, ht⟩
    obtain ⟨_, _, ⟨t, hf, ht⟩, _, _, _⟩ :=
      download_tile_not_ready fetch pid rid x y zoom db hnr
    unfold tileReady
    simp only [hf]
    rcases hok : (download_tile fetch pid rid x y zoom db).ok with _ | _
    · rw [hok] at ht
      simp only [Bool.false_eq_true, if_false] at ht
      simp [ht]
    · rw [hok] at ht
      simp only [if_true] at ht
      simp [ht]

/-- A pass whose tiles are all READY already: every tile short-circuits,
so the database, fetch count and commit trace are untouched and the
success count is the full tile count. -/
theorem run_tiles_all_ready (fetch : Fetch) (pid rid : ℕ) (zoom : ℕ) :
    ∀ (tiles : List (ℤ × ℤ)) (db : DB),
      (∀ xy ∈ tiles, tileReady db pid xy zoom = true) →
      run_tiles fetch pid rid zoom tiles db = ⟨tiles.length, db, 0, []⟩ := by
  intro tiles
  induction tiles with
  | nil => intro db _; rfl
  | cons xy rest ih =>
    intro db hall
    obtain ⟨x, y⟩ := xy
    have hhead := hall (x, y) (List.mem_cons_self _ _)
    have ht : ∃ t, findTile db pid x y zoom = some t ∧ t.status = .ready := by
      unfold tileReady at hhead
      cases hf : findTile db pid x y zoom with
      | none => rw [hf] at hhead; simp at hhead
      | some t =>
        rw [hf] at hhead
        simp only [beq_iff_eq] at hhead
        exact ⟨t, rfl, hhead⟩
    obtain ⟨t, hf, hts⟩ := ht
    have hdt := download_tile_ready fetch pid rid x y zoom db hf hts
    show (let o := download_tile fetch pid rid x y zoom db
          let r := run_tiles fetch pid rid zoom rest o.db
          (⟨(if o.ok then 1 else 0) + r.succ, r.db, o.fetches + r.fetches,
            o.trace ++ r.trace⟩ : PassOut)) = _
    rw [hdt]
    simp only
    rw [ih db fun xy h => hall xy (List.mem_cons_of_mem _ h)]
    simp [List.length_cons, Nat.add_comm]

/-- A pass touches no tile row outside its own provider/tile list and no
region row. -/
theorem run_tiles_frame (fetch : Fetch) (pid rid : ℕ) (zoom : ℕ) :
    ∀ (tiles : List (ℤ × ℤ)) (db : DB) (pid' : ℕ) (x' y' : ℤ) (zoom' : ℕ),
      (∀ xy ∈ tiles, ¬(pid' = pid ∧ x' = xy.1 ∧ y' = xy.2 ∧ zoom' = zoom)) →
      findTile (run_tiles fetch pid rid zoom tiles db).db pid' x' y' zoom'
        = findTile db pid' x' y' zoom' ∧
      (run_tiles fetch pid rid zoom tiles db).db.regions = db.regions := by
  intro tiles
  induction tiles with
  | nil => intro db pid' x' y' zoom' _; exact ⟨rfl, rfl⟩
  | cons xy rest ih =>
    intro db pid' x' y' zoom' hall
    obtain ⟨x, y⟩ := xy
    have hne := hall (x, y) (List.mem_cons_self _ _)
    obtain ⟨hfr1, hreg1⟩ :=
      download_tile_frame fetch pid rid x y zoom db pid' x' y' zoom' hne
    obtain ⟨hfr2, hreg2⟩ :=
      ih (download_tile fetch pid rid x y zoom db).db pid' x' y' zoom'
        fun xy h => hall xy (List.mem_cons_of_mem _ h)
    exact ⟨hfr2.trans hfr1, hreg2.trans hreg1⟩

/-- The success count of a pass over distinct tiles equals the number of
its tiles that are READY in the database after the pass. -/
theorem run_tiles_succ_count (fetch : Fetch) (pid rid : ℕ) (zoom : ℕ) :
    ∀ (tiles : List (ℤ × ℤ)) (db : DB), tiles.Nodup →
      (run_tiles fetch pid rid zoom tiles db).succ =
        tiles.countP fun xy =>
          tileReady (run_tiles fetch pid rid zoom tiles db).db pid xy zoom := by
  intro tiles
  induction tiles with
  | nil => intro db _; rfl
  | cons xy rest ih =>
    intro db hnd
    obtain ⟨x, y⟩ := xy
    rw [List.nodup_cons] at hnd
    have hframe : ∀ xy2 ∈ rest, ¬(pid = pid ∧ x = xy2.1 ∧ y = xy2.2 ∧
        zoom = zoom) := by
      intro xy2 hmem hcon
      exact hnd.1 (by
        obtain ⟨_, h2, h3, _⟩ := hcon
        have : xy2 = (x, y) := by
          obtain ⟨a, b⟩ := xy2
          simp only at h2 h3
          rw [← h2, ← h3]
        rw [← this]
        exact hmem)
    have hrest := ih (download_tile fetch pid rid x y zoom db).db hnd.2
    have hkeep := (run_tiles_frame fetch pid rid zoom rest
      (download_tile fetch pid rid x y zoom db).db pid x y zoom hframe).1
    show (let o := download_tile fetch pid rid x y zoom db
          let r := run_tiles fetch pid rid zoom rest o.db
          (⟨(if o.ok then 1 else 0) + r.succ, r.db, o.fetches + r.fetches,
            o.trace ++ r.trace⟩ : PassOut)).succ = _
    simp only
    rw [List.countP_cons]
    have hok := download_tile_ok_eq fetch pid rid x y zoom db
    have hhead : tileReady
        (run_tiles fetch pid rid zoom rest
          (download_tile fetch pid rid x y zoom db).db).db pid (x, y) zoom =
        tileReady (download_tile fetch pid rid x y zoom db).db pid (x, y)
          zoom := by
      unfold tileReady
      rw [hkeep]
    have hconsdb : (run_tiles fetch pid rid zoom ((x, y) :: rest) db).db =
        (run_tiles fetch pid rid zoom rest
          (download_tile fetch pid rid x y zoom db).db).db := rfl
    rw [hconsdb, hhead, ← hok, ← hrest]
    exact Nat.add_comm _ _

end Mgr

namespace Geo

theorem intRange_nodup (a b : ℤ) : (intRange a b).Nodup := by
  unfold intRange
  refine List.Nodup.map ?_ (List.nodup_range _)
  intro i j hij
  simp only at hij
  omega

theorem bounds_to_tiles_nodup (minLon minM maxLon maxM : ℚ) (zoom : ℕ) :
    (bounds_to_tiles minLon minM maxLon maxM zoom).Nodup := by
  unfold bounds_to_tiles
  rw [List.nodup_flatMap]
  constructor
  · intro x _
    exact List.Nodup.map (fun a b hab => by simpa using hab) (intRange_nodup _ _)
  · refine List.Nodup.pairwise_of_forall_ne (intRange_nodup _ _) ?_
    intro a _ b _ hab
    simp only [Function.onFun]
    intro p hpa hpb
    obtain ⟨ya, _, rfl⟩ := List.mem_map.mp hpa
    obtain ⟨yb, _, hE⟩ := List.mem_map.mp hpb
    simp only [Prod.mk.injEq] at hE
    exact hab hE.1.symm

end Geo

namespace Mgr

theorem regionId_of_findRegion {db : DB} {rid : ℕ} {r : RegionRec}
    (h : findRegion db rid = some r) : r.id = rid := by
  unfold findRegion at h
  have := List.find?_some h
  simpa using this

theorem find?_map_setRegion (l : List RegionRec) (r : RegionRec) (rid : ℕ)
    (hid : r.id = rid)
    (hex : (l.find? fun r0 => r0.id == rid).isSome) :
    ((l.map fun r0 => if r0.id == r.id then r else r0).find?
      fun r0 => r0.id == rid) = some r := by
  induction l with
  | nil => simp at hex
  | cons r0 rest ih =>
    rw [List.find?_cons] at hex
    rw [List.map_cons, List.find?_cons]
    by_cases h0 : (r0.id == rid) = true
    · have h0' : (r0.id == r.id) = true := by
        rw [hid]
        exact h0
      rw [h0']
      simp only [if_true]
      have : (r.id == rid) = true := by
        rw [hid]
        simp
      rw [this]
    · have h0' : (r0.id == r.id) = false := by
        rw [hid]
        exact Bool.eq_false_iff.mpr h0
      rw [h0']
      simp only [Bool.false_eq_true, if_false]
      rw [Bool.eq_false_iff.mpr h0]
      rw [Bool.eq_false_iff.mpr h0] at hex
      simp only [Bool.false_eq_true, if_false] at hex ⊢
      exact ih hex

theorem findRegion_setRegion_same {db : DB} {rid : ℕ} (r : RegionRec)
    (hid : r.id = rid) (hex : (findRegion db rid).isSome) :
    findRegion (setRegion db r) rid = some r := by
  unfold findRegion at hex
  unfold findRegion setRegion
  exact find?_map_setRegion db.regions r rid hid hex

theorem download_tile_regions (fetch : Fetch) (pid rid : ℕ) (x y : ℤ)
    (zoom : ℕ) (db : DB) :
    (download_tile fetch pid rid x y zoom db).db.regions = db.regions := by
  by_cases hr : ∃ t, findTile db pid x y zoom = some t ∧ t.status = .ready
  · obtain ⟨t, hf, ht⟩ := hr
    rw [download_tile_ready fetch pid rid x y zoom db hf ht]
  · exact (download_tile_not_ready fetch pid rid x y zoom db
      fun t hf ht => hr ⟨t, hf, ht⟩).2.2.2.2.2

theorem run_tiles_regions (fetch : Fetch) (pid rid : ℕ) (zoom : ℕ) :
    ∀ (tiles : List (ℤ × ℤ)) (db : DB),
      (run_tiles fetch pid rid zoom tiles db).db.regions = db.regions := by
  intro tiles
  induction tiles with
  | nil => intro db; rfl
  | cons xy rest ih =>
    intro db
    obtain ⟨x, y⟩ := xy
    exact (ih _).trans (download_tile_regions fetch pid rid x y zoom db)

theorem tileReady_congr {db db' : DB} (h : db.tiles = db'.tiles) (pid : ℕ)
    (xy : ℤ × ℤ) (zoom : ℕ) :
    tileReady db pid xy zoom = tileReady db' pid xy zoom := by
  unfold tileReady findTile
  rw [h]

/-- The per-provider step and the provider fold never change a region's
identity, geometry or target zoom. -/
theorem provsFold_region_pres (fetch : Fetch) (zoom : ℕ) :
    ∀ (provs : List ℕ) (region : RegionRec) (db : DB),
      (provsFold fetch zoom provs region db).region.id = region.id ∧
      (provsFold fetch zoom provs region db).region.minLon = region.minLon ∧
      (provsFold fetch zoom provs region db).region.minLatM = region.minLatM ∧
      (provsFold fetch zoom provs region db).region.maxLon = region.maxLon ∧
      (provsFold fetch zoom provs region db).region.maxLatM = region.maxLatM ∧
      (provsFold fetch zoom provs region db).region.targetZoom =
        region.targetZoom := by
  intro provs
  induction provs with
  | nil => intro region db; exact ⟨rfl, rfl, rfl, rfl, rfl, rfl⟩
  | cons p rest ih =>
    intro region db
    exact ih (download_region_from_provider fetch region p zoom db).region
      (download_region_from_provider fetch region p zoom db).db

theorem provsFold_requiredTiles (fetch : Fetch) (zoom zoom2 : ℕ)
    (provs : List ℕ) (region : RegionRec) (db : DB) :
    requiredTiles (provsFold fetch zoom provs region db).region zoom2 =
      requiredTiles region zoom2 := by
  obtain ⟨_, h1, h2, h3, h4, _⟩ := provsFold_region_pres fetch zoom provs region db
  unfold requiredTiles
  rw [h1, h2, h3, h4]

/-- The provider fold keeps the worked-on region row present in the
database. -/
theorem provsFold_findRegion (fetch : Fetch) (zoom : ℕ) {rid : ℕ} :
    ∀ (provs : List ℕ) (region : RegionRec) (db : DB),
      region.id = rid → (findRegion db rid).isSome →
      (findRegion (provsFold fetch zoom provs region db).db rid).isSome := by
  intro provs
  induction provs with
  | nil => intro region db _ hex; exact hex
  | cons p rest ih =>
    intro region db hid hex
    refine ih _ _ hid ?_
    show (findRegion (setRegion (run_tiles fetch p region.id zoom
      (requiredTiles region zoom)
      (setRegion db { region with
        totalTiles := (requiredTiles region zoom).length * [p].length })).db
      _ ) rid).isSome
    have h1 : findRegion (setRegion db { region with
        totalTiles := (requiredTiles region zoom).length * [p].length }) rid
        = some { region with
          totalTiles := (requiredTiles region zoom).length * [p].length } :=
      findRegion_setRegion_same _ hid hex
    have h2 : (findRegion (run_tiles fetch p region.id zoom
        (requiredTiles region zoom)
        (setRegion db { region with
          totalTiles := (requiredTiles region zoom).length * [p].length })).db
          rid).isSome := by
      unfold findRegion
      rw [run_tiles_regions]
      unfold findRegion at h1
      rw [h1]
      rfl
    have h3 := @findRegion_setRegion_same
      ((run_tiles fetch p region.id zoom (requiredTiles region zoom)
        (setRegion db { region with
          totalTiles := (requiredTiles region zoom).length * [p].length })).db)
      rid
      { { region with
          totalTiles := (requiredTiles region zoom).length * [p].length } with
        downloadedTiles := (run_tiles fetch p region.id zoom
          (requiredTiles region zoom)
          (setRegion db { region with
            totalTiles := (requiredTiles region zoom).length * [p].length })).succ }
      hid h2
    rw [h3]
    rfl

end Mgr

namespace Mgr

/-- A provider pass over a region whose required tiles are all READY:
no fetch, no commit, no change to any tile row; the success count — and
hence the assigned `downloaded_tiles` — is the full tile count. -/
theorem provsFold_all_ready (fetch : Fetch) (zoom : ℕ) :
    ∀ (provs : List ℕ) (region : RegionRec) (db : DB),
      (∀ p ∈ provs, ∀ xy ∈ requiredTiles region zoom,
        tileReady db p xy zoom = true) →
      (provsFold fetch zoom provs region db).db.tiles = db.tiles ∧
      (provsFold fetch zoom provs region db).fetches = 0 ∧
      (provsFold fetch zoom provs region db).trace = [] ∧
      (provs = [] → (provsFold fetch zoom provs region db).region = region) ∧
      (provs ≠ [] →
        (provsFold fetch zoom provs region db).region.downloadedTiles =
          (requiredTiles region zoom).length) := by
  intro provs
  induction provs with
  | nil =>
    intro region db _
    exact ⟨rfl, rfl, rfl, fun _ => rfl, fun h => absurd rfl h⟩
  | cons p rest ih =>
    intro region db h
    have hready1 : ∀ xy ∈ requiredTiles region zoom,
        tileReady (setRegion db { region with
          totalTiles := (requiredTiles region zoom).length * [p].length })
          p xy zoom = true := by
      intro xy hxy
      rw [tileReady_congr (setRegion_tiles db _) p xy zoom]
      exact h p (List.mem_cons_self _ _) xy hxy
    have hrt := run_tiles_all_ready fetch p region.id zoom
      (requiredTiles region zoom)
      (setRegion db { region with
        totalTiles := (requiredTiles region zoom).length * [p].length })
      hready1
    have ho_db : (download_region_from_provider fetch region p zoom db).db.tiles
        = db.tiles := by
      show (setRegion (run_tiles fetch p region.id zoom
        (requiredTiles region zoom)
        (setRegion db { region with
          totalTiles := (requiredTiles region zoom).length * [p].length })).db
        _).tiles = db.tiles
      rw [setRegion_tiles, hrt]
      rfl
    have ho_f : (download_region_from_provider fetch region p zoom db).fetches
        = 0 := by
      show (run_tiles fetch p region.id zoom (requiredTiles region zoom)
        (setRegion db { region with
          totalTiles := (requiredTiles region zoom).length * [p].length })).fetches
        = 0
      rw [hrt]
    have ho_tr : (download_region_from_provider fetch region p zoom db).trace
        = [] := by
      show (run_tiles fetch p region.id zoom (requiredTiles region zoom)
        (setRegion db { region with
          totalTiles := (requiredTiles region zoom).length * [p].length })).trace
        = []
      rw [hrt]
    have ho_dl : (download_region_from_provider fetch region p
        zoom db).region.downloadedTiles = (requiredTiles region zoom).length := by
      show (run_tiles fetch p region.id zoom (requiredTiles region zoom)
        (setRegion db { region with
          totalTiles := (requiredTiles region zoom).length * [p].length })).succ
        = (requiredTiles region zoom).length
      rw [hrt]
    have hglue : ∀ p2 ∈ rest, ∀ xy ∈ requiredTiles
        (download_region_from_provider fetch region p zoom db).region zoom,
        tileReady (download_region_from_provider fetch region p zoom db).db
          p2 xy zoom = true := by
      intro p2 hp2 xy hxy
      have hxy2 : xy ∈ requiredTiles region zoom := hxy
      rw [tileReady_congr ho_db p2 xy zoom]
      exact h p2 (List.mem_cons_of_mem _ hp2) xy hxy2
    obtain ⟨iT, iF, iTr, iNil, iNe⟩ := ih
      (download_region_from_provider fetch region p zoom db).region
      (download_region_from_provider fetch region p zoom db).db hglue
    refine ⟨?_, ?_, ?_, ?_, ?_⟩
    · show (provsFold fetch zoom rest
        (download_region_from_provider fetch region p zoom db).region
        (download_region_from_provider fetch region p zoom db).db).db.tiles
        = db.tiles
      rw [iT, ho_db]
    · show (download_region_from_provider fetch region p zoom db).fetches +
        (provsFold fetch zoom rest
          (download_region_from_provider fetch region p zoom db).region
          (download_region_from_provider fetch region p zoom db).db).fetches = 0
      rw [iF, ho_f]
    · show (download_region_from_provider fetch region p zoom db).trace ++
        (provsFold fetch zoom rest
          (download_region_from_provider fetch region p zoom db).region
          (download_region_from_provider fetch region p zoom db).db).trace = []
      rw [iTr, ho_tr]
      rfl
    · intro hc
      exact absurd hc (by simp)
    · intro _
      show (provsFold fetch zoom rest
        (download_region_from_provider fetch region p zoom db).region
        (download_region_from_provider fetch region p zoom
          db).db).region.downloadedTiles = (requiredTiles region zoom).length
      rcases hrest2 : rest with _ | ⟨p2, rest2⟩
      · rw [hrest2] at iNil
        rw [iNil rfl]
        exact ho_dl
      · rw [hrest2] at iNe
        rw [iNe (by simp)]
        have : requiredTiles
            (download_region_from_provider fetch region p zoom db).region zoom
            = requiredTiles region zoom := rfl
        rw [this]

end Mgr

namespace Mgr

theorem requiredTiles_nodup (region : RegionRec) (zoom : ℕ) :
    (requiredTiles region zoom).Nodup :=
  Geo.bounds_to_tiles_nodup _ _ _ _ _

/-- After the provider loop, the region's `downloaded_tiles` is the last
provider's success count: the number of that provider's required tiles
that are READY afterwards (each provider's assignment overwrites the
previous one). -/
theorem provsFold_last_downloaded (fetch : Fetch) (zoom : ℕ) :
    ∀ (provs : List ℕ) (region : RegionRec) (db : DB) (hne : provs ≠ []),
      (provsFold fetch zoom provs region db).region.downloadedTiles =
        (requiredTiles region zoom).countP fun xy =>
          tileReady (provsFold fetch zoom provs region db).db
            (provs.getLast hne) xy zoom := by
  intro provs
  induction provs with
  | nil => intro region db hne; exact absurd rfl hne
  | cons p rest ih =>
    intro region db hne
    cases rest with
    | nil =>
      have hcnt := run_tiles_succ_count fetch p region.id zoom
        (requiredTiles region zoom)
        (setRegion db { region with
          totalTiles := (requiredTiles region zoom).length * [p].length })
        (requiredTiles_nodup region zoom)
      show (run_tiles fetch p region.id zoom (requiredTiles region zoom)
        (setRegion db { region with
          totalTiles := (requiredTiles region zoom).length * [p].length })).succ
        = (requiredTiles region zoom).countP fun xy =>
            tileReady (setRegion (run_tiles fetch p region.id zoom
              (requiredTiles region zoom)
              (setRegion db { region with
                totalTiles :=
                  (requiredTiles region zoom).length * [p].length })).db _)
              ([p].getLast hne) xy zoom
      rw [hcnt]
      rfl
    | cons p2 rest2 =>
      have hlast : (p :: p2 :: rest2).getLast hne =
          (p2 :: rest2).getLast (by simp) := by
        rw [List.getLast_cons]
      have ihx := ih (download_region_from_provider fetch region p zoom db).region
        (download_region_from_provider fetch region p zoom db).db (by simp)
      have hreq : requiredTiles
          (download_region_from_provider fetch region p zoom db).region zoom =
          requiredTiles region zoom := rfl
      rw [hreq] at ihx
      show (provsFold fetch zoom (p2 :: rest2)
        (download_region_from_provider fetch region p zoom db).region
        (download_region_from_provider fetch region p zoom
          db).db).region.downloadedTiles = _
      rw [ihx, hlast]
      rfl

/-- `download_region` on a present region: the provider loop followed by
the unconditional `is_complete = True` commit. -/
theorem download_region_some (fetch : Fetch) (rid : ℕ) (provs : List ℕ)
    (zoomOpt : Option ℕ) (db : DB) {region : RegionRec}
    (hfind : findRegion db rid = some region) :
    download_region fetch rid provs zoomOpt db =
      .ok ⟨setRegion
          (provsFold fetch (zoomOpt.getD (region.targetZoom.getD 16)) provs
            region db).db
          { (provsFold fetch (zoomOpt.getD (region.targetZoom.getD 16)) provs
              region db).region with isComplete := true },
        (provsFold fetch (zoomOpt.getD (region.targetZoom.getD 16)) provs
          region db).fetches,
        (provsFold fetch (zoomOpt.getD (region.targetZoom.getD 16)) provs
          region db).trace⟩ := by
  unfold download_region
  rw [hfind]

/-- `download_region` on an absent region raises
`ValueError("Region not found: ...")`. -/
theorem download_region_none (fetch : Fetch) (rid : ℕ) (provs : List ℕ)
    (zoomOpt : Option ℕ) (db : DB) (hfind : findRegion db rid = none) :
    download_region fetch rid provs zoomOpt db = .error "Region not found" := by
  unfold download_region
  rw [hfind]

end Mgr

namespace Mgr

/-- At zoom 0 the tile grid is the single tile `(0, 0)` whatever the
region's bounds: `coords_to_tile` clamps both indices into `[0, 0]`. -/
theorem requiredTiles_zoom0 (region : RegionRec) :
    requiredTiles region 0 = [(0, 0)] := by
  unfold requiredTiles Geo.bounds_to_tiles Geo.coords_to_tile
  dsimp only
  rw [Geo.pyint_pow 0]
  have hclamp : ∀ w : ℤ, max 0 (min ((2 : ℤ) ^ 0 - 1) w) = 0 := by
    intro w
    simp only [pow_zero]
    omega
  rw [hclamp, hclamp, hclamp, hclamp, Geo.intRange_self]
  rfl

end Mgr

/-- **C6, counterexample.** `download_region` on a database with no
matching Region record raises `ValueError` (modelled as `Except.error`)
rather than returning aggregated counts. -/
theorem c6_counterexample :
    Mgr.download_region (fun _ _ _ _ => Mgr.FetchOut.success) 1 [0] none
      ⟨[], []⟩ = Except.error "Region not found" := rfl

/-- **C6, amended.** For every region id with a matching Region record,
`download_region` returns normally with the aggregated run result — for
every fetch oracle, including ones whose every call reports a
result-level failure or raises an exception, because `_download_tile`
catches both; only a missing region id escapes as an exception
(`ValueError`, see the counterexample). -/
theorem c6_no_exception_for_existing_region (fetch : Mgr.Fetch) (rid : ℕ)
    (provs : List ℕ) (zoomOpt : Option ℕ) (db : Mgr.DB)
    (region : Mgr.RegionRec) (hfind : Mgr.findRegion db rid = some region) :
    ∃ out, Mgr.download_region fetch rid provs zoomOpt db = .ok out :=
  ⟨_, Mgr.download_region_some fetch rid provs zoomOpt db hfind⟩

/-- Witness for `c6_no_exception_for_existing_region`: a present region
and an always-raising fetch oracle still yield a normal return. -/
theorem c6_no_exception_for_existing_region_witness :
    ∃ out, Mgr.download_region (fun _ _ _ _ => Mgr.FetchOut.exc "boom") 1 [0]
      none ⟨[⟨1, 0, 0, 0, 0, some 0, 0, 0, false⟩], []⟩ = .ok out :=
  c6_no_exception_for_existing_region (fun _ _ _ _ => Mgr.FetchOut.exc "boom")
    1 [0] none ⟨[⟨1, 0, 0, 0, 0, some 0, 0, 0, false⟩], []⟩
    ⟨1, 0, 0, 0, 0, some 0, 0, 0, false⟩ rfl

/-- **C8, counterexample.** A tile first referenced by an orchestrator
run is created with status DOWNLOADING, not PENDING: on an empty
database the first committed status is DOWNLOADING. -/
theorem c8_counterexample :
    (Mgr.download_tile (fun _ _ _ _ => Mgr.FetchOut.success) 0 1 0 0 5
        ⟨[], []⟩).trace =
      [((0, 0, 0, 5), Mgr.TileStatus.downloading),
       ((0, 0, 0, 5), Mgr.TileStatus.ready)] ∧
    (Mgr.download_tile (fun _ _ _ _ => Mgr.FetchOut.success) 0 1 0 0 5
        ⟨[], []⟩).trace.head? ≠
      some ((0, 0, 0, 5), Mgr.TileStatus.pending) := by
  constructor
  · rfl
  · intro hcon
    simp only [show (Mgr.download_tile (fun _ _ _ _ => Mgr.FetchOut.success)
      0 1 0 0 5 ⟨[], []⟩).trace =
        [((0, 0, 0, 5), Mgr.TileStatus.downloading),
         ((0, 0, 0, 5), Mgr.TileStatus.ready)] from rfl] at hcon
    simp at hcon

/-- **C8, amended.** Per `_download_tile` run, the status commits for a
tile follow this machine: nothing is committed when the row is already
READY (the skip branch); otherwise the run commits DOWNLOADING — a
missing row is created directly with status DOWNLOADING (never PENDING),
and an existing non-READY row, in particular an ERROR row being retried,
transitions to DOWNLOADING — followed by exactly one of READY (success,
returning True) or ERROR (failure or exception, returning False). Hence
every status the orchestrator ever commits is DOWNLOADING, READY or
ERROR. -/
theorem c8_commit_trace (fetch : Mgr.Fetch) (pid rid : ℕ) (x y : ℤ)
    (zoom : ℕ) (db : Mgr.DB) :
    ((∃ t, Mgr.findTile db pid x y zoom = some t ∧
        t.status = Mgr.TileStatus.ready) →
      (Mgr.download_tile fetch pid rid x y zoom db).trace = [] ∧
      (Mgr.download_tile fetch pid rid x y zoom db).ok = true) ∧
    ((¬ ∃ t, Mgr.findTile db pid x y zoom = some t ∧
        t.status = Mgr.TileStatus.ready) →
      (Mgr.download_tile fetch pid rid x y zoom db).trace =
        [((pid, x, y, zoom), Mgr.TileStatus.downloading),
         ((pid, x, y, zoom),
          if (Mgr.download_tile fetch pid rid x y zoom db).ok then
            Mgr.TileStatus.ready
          else Mgr.TileStatus.error)]) := by
  constructor
  · rintro ⟨t, hf, ht⟩
    rw [Mgr.download_tile_ready fetch pid rid x y zoom db hf ht]
    exact ⟨rfl, rfl⟩
  · intro hnr
    exact (Mgr.download_tile_not_ready fetch pid rid x y zoom db
      fun t hf ht => hnr ⟨t, hf, ht⟩).2.1

/-- Witness for `c8_commit_trace`: a fresh tile with a failing fetch
commits DOWNLOADING then ERROR; a READY tile commits nothing. -/
theorem c8_commit_trace_witness :
    ((∃ t, Mgr.findTile ⟨[], []⟩ 0 0 0 5 = some t ∧
        t.status = Mgr.TileStatus.ready) →
      (Mgr.download_tile (fun _ _ _ _ => Mgr.FetchOut.failure "nope") 0 1 0 0 5
        ⟨[], []⟩).trace = [] ∧
      (Mgr.download_tile (fun _ _ _ _ => Mgr.FetchOut.failure "nope") 0 1 0 0 5
        ⟨[], []⟩).ok = true) ∧
    ((¬ ∃ t, Mgr.findTile ⟨[], []⟩ 0 0 0 5 = some t ∧
        t.status = Mgr.TileStatus.ready) →
      (Mgr.download_tile (fun _ _ _ _ => Mgr.FetchOut.failure "nope") 0 1 0 0 5
        ⟨[], []⟩).trace =
        [((0, 0, 0, 5), Mgr.TileStatus.downloading),
         ((0, 0, 0, 5),
          if (Mgr.download_tile (fun _ _ _ _ => Mgr.FetchOut.failure "nope")
            0 1 0 0 5 ⟨[], []⟩).ok then Mgr.TileStatus.ready
          else Mgr.TileStatus.error)]) :=
  c8_commit_trace (fun _ _ _ _ => Mgr.FetchOut.failure "nope") 0 1 0 0 5
    ⟨[], []⟩

/-- **C5.** Idempotence of a re-run: if after a completed
`download_region` every required tile of every requested provider is
READY, running `download_region` again with the same region, provider
set and zoom performs zero `get_tile` invocations (every tile
short-circuits as success, and nothing is committed for any tile) and
leaves the region's `downloaded_tiles` value unchanged. -/
theorem c5_rerun_idempotent (fetch : Mgr.Fetch) (rid : ℕ) (provs : List ℕ)
    (zoomOpt : Option ℕ) (db : Mgr.DB) (out1 : Mgr.RunOut)
    (r1 : Mgr.RegionRec)
    (h1 : Mgr.download_region fetch rid provs zoomOpt db = .ok out1)
    (hr1 : Mgr.findRegion out1.db rid = some r1)
    (hready : ∀ p ∈ provs,
      ∀ xy ∈ Mgr.requiredTiles r1 (zoomOpt.getD (r1.targetZoom.getD 16)),
      Mgr.tileReady out1.db p xy (zoomOpt.getD (r1.targetZoom.getD 16)) = true) :
    ∃ out2, Mgr.download_region fetch rid provs zoomOpt out1.db = .ok out2 ∧
      out2.fetches = 0 ∧ out2.trace = [] ∧
      ∃ r2, Mgr.findRegion out2.db rid = some r2 ∧
        r2.downloadedTiles = r1.downloadedTiles := by
  cases hfind : Mgr.findRegion db rid with
  | none =>
    rw [Mgr.download_region_none fetch rid provs zoomOpt db hfind] at h1
    exact absurd h1 (by simp)
  | some region =>
    have hrid : region.id = rid := Mgr.regionId_of_findRegion hfind
    have hout1 : out1 = ⟨Mgr.setRegion
        (Mgr.provsFold fetch (zoomOpt.getD (region.targetZoom.getD 16)) provs
          region db).db
        { (Mgr.provsFold fetch (zoomOpt.getD (region.targetZoom.getD 16))
            provs region db).region with isComplete := true },
        (Mgr.provsFold fetch (zoomOpt.getD (region.targetZoom.getD 16)) provs
          region db).fetches,
        (Mgr.provsFold fetch (zoomOpt.getD (region.targetZoom.getD 16)) provs
          region db).trace⟩ := by
      rw [Mgr.download_region_some fetch rid provs zoomOpt db hfind] at h1
      exact (Except.ok.inj h1).symm
    have hex1 : (Mgr.findRegion db rid).isSome = true := by
      rw [hfind]
      rfl
    have hexP1 : (Mgr.findRegion
        (Mgr.provsFold fetch (zoomOpt.getD (region.targetZoom.getD 16)) provs
          region db).db rid).isSome = true :=
      Mgr.provsFold_findRegion fetch _ provs region db hrid hex1
    have hpres := Mgr.provsFold_region_pres fetch
      (zoomOpt.getD (region.targetZoom.getD 16)) provs region db
    have hfr1 : Mgr.findRegion out1.db rid = some
        { (Mgr.provsFold fetch (zoomOpt.getD (region.targetZoom.getD 16))
            provs region db).region with isComplete := true } := by
      rw [hout1]
      exact Mgr.findRegion_setRegion_same _ (by
        show (Mgr.provsFold fetch (zoomOpt.getD (region.targetZoom.getD 16))
          provs region db).region.id = rid
        rw [hpres.1, hrid]) hexP1
    have hr1eq : r1 = { (Mgr.provsFold fetch
        (zoomOpt.getD (region.targetZoom.getD 16)) provs region db).region
        with isComplete := true } := by
      rw [hfr1] at hr1
      exact (Option.some.inj hr1).symm
    have hz2 : zoomOpt.getD (r1.targetZoom.getD 16) =
        zoomOpt.getD (region.targetZoom.getD 16) := by
      rw [hr1eq]
      show zoomOpt.getD ((Mgr.provsFold fetch
        (zoomOpt.getD (region.targetZoom.getD 16)) provs region
          db).region.targetZoom.getD 16) = _
      rw [hpres.2.2.2.2.2]
    have hreq1 : Mgr.requiredTiles r1 (zoomOpt.getD (r1.targetZoom.getD 16)) =
        Mgr.requiredTiles region (zoomOpt.getD (region.targetZoom.getD 16)) := by
      rw [hz2, hr1eq]
      exact Mgr.provsFold_requiredTiles fetch _ _ provs region db
    have hready2 : ∀ p ∈ provs,
        ∀ xy ∈ Mgr.requiredTiles r1 (zoomOpt.getD (r1.targetZoom.getD 16)),
        Mgr.tileReady out1.db p xy
          (zoomOpt.getD (r1.targetZoom.getD 16)) = true := hready
    obtain ⟨aT, aF, aTr, aNil, aNe⟩ := Mgr.provsFold_all_ready fetch
      (zoomOpt.getD (r1.targetZoom.getD 16)) provs r1 out1.db hready2
    refine ⟨_, Mgr.download_region_some fetch rid provs zoomOpt out1.db hr1,
      aF, aTr, ?_⟩
    have hexO : (Mgr.findRegion out1.db rid).isSome = true := by
      rw [hr1]
      rfl
    have hrid1 : r1.id = rid := Mgr.regionId_of_findRegion hr1
    have hpres2 := Mgr.provsFold_region_pres fetch
      (zoomOpt.getD (r1.targetZoom.getD 16)) provs r1 out1.db
    have hexP2 : (Mgr.findRegion
        (Mgr.provsFold fetch (zoomOpt.getD (r1.targetZoom.getD 16)) provs r1
          out1.db).db rid).isSome = true :=
      Mgr.provsFold_findRegion fetch _ provs r1 out1.db hrid1 hexO
    refine ⟨{ (Mgr.provsFold fetch (zoomOpt.getD (r1.targetZoom.getD 16))
        provs r1 out1.db).region with isComplete := true },
      Mgr.findRegion_setRegion_same _ (by
        show (Mgr.provsFold fetch (zoomOpt.getD (r1.targetZoom.getD 16)) provs
          r1 out1.db).region.id = rid
        rw [hpres2.1, hrid1]) hexP2, ?_⟩
    show (Mgr.provsFold fetch (zoomOpt.getD (r1.targetZoom.getD 16)) provs r1
      out1.db).region.downloadedTiles = r1.downloadedTiles
    cases hprovs : provs with
    | nil =>
      rw [hprovs] at aNil
      rw [aNil rfl]
    | cons p0 rest0 =>
      have hne : provs ≠ [] := by
        rw [hprovs]
        simp
      rw [← hprovs]
      rw [aNe (by rw [hprovs]; simp)]
      have hlast := Mgr.provsFold_last_downloaded fetch
        (zoomOpt.getD (region.targetZoom.getD 16)) provs region db hne
      have hr1dl : r1.downloadedTiles =
          (Mgr.requiredTiles region
            (zoomOpt.getD (region.targetZoom.getD 16))).countP fun xy =>
            Mgr.tileReady (Mgr.provsFold fetch
              (zoomOpt.getD (region.targetZoom.getD 16)) provs region db).db
              (provs.getLast hne) xy
              (zoomOpt.getD (region.targetZoom.getD 16)) := by
        rw [hr1eq]
        exact hlast
      have htiles1 : Mgr.tileReady out1.db = Mgr.tileReady
          (Mgr.provsFold fetch (zoomOpt.getD (region.targetZoom.getD 16))
            provs region db).db := by
        funext p xy z
        refine Mgr.tileReady_congr ?_ p xy z
        rw [hout1]
        rfl
      have hcnt : (Mgr.requiredTiles region
          (zoomOpt.getD (region.targetZoom.getD 16))).countP (fun xy =>
            Mgr.tileReady (Mgr.provsFold fetch
              (zoomOpt.getD (region.targetZoom.getD 16)) provs region db).db
              (provs.getLast hne) xy
              (zoomOpt.getD (region.targetZoom.getD 16))) =
          (Mgr.requiredTiles region
            (zoomOpt.getD (region.targetZoom.getD 16))).length := by
        rw [List.countP_eq_length]
        intro xy hxy
        rw [← htiles1]
        have := hready (provs.getLast hne) (List.getLast_mem hne) xy (by
          rw [hreq1]
          exact hxy)
        rw [hz2] at this
        exact this
      rw [hr1dl, hcnt, hreq1]

/-- Witness for `c5_rerun_idempotent`: a one-tile region (zoom 0)
downloaded once by an always-succeeding fetch; the re-run performs zero
`get_tile` calls, commits nothing, and keeps `downloaded_tiles` at 1. -/
theorem c5_rerun_idempotent_witness :
    ∃ out2, Mgr.download_region (fun _ _ _ _ => Mgr.FetchOut.success) 1 [0]
        (some 0)
        ⟨[⟨1, 0, 0, 0, 0, some 0, 1, 1, true⟩],
         [⟨0, 1, 0, 0, 0, .ready, none⟩]⟩ = .ok out2 ∧
      out2.fetches = 0 ∧ out2.trace = [] ∧
      ∃ r2, Mgr.findRegion out2.db 1 = some r2 ∧
        r2.downloadedTiles = 1 :=
  c5_rerun_idempotent (fun _ _ _ _ => Mgr.FetchOut.success) 1 [0] (some 0)
    ⟨[⟨1, 0, 0, 0, 0, some 0, 0, 0, false⟩], []⟩
    ⟨⟨[⟨1, 0, 0, 0, 0, some 0, 1, 1, true⟩],
       [⟨0, 1, 0, 0, 0, .ready, none⟩]⟩, 1,
      [((0, 0, 0, 0), .downloading), ((0, 0, 0, 0), .ready)]⟩
    ⟨1, 0, 0, 0, 0, some 0, 1, 1, true⟩
    (by
      simp [Mgr.download_region, Mgr.findRegion, Mgr.provsFold,
        Mgr.download_region_from_provider, Mgr.requiredTiles_zoom0,
        Mgr.run_tiles, Mgr.download_tile, Mgr.findTile, Mgr.setRegion,
        Mgr.updTile, Mgr.keyMatch])
    rfl
    (by
      intro p hp xy hxy
      simp only [Option.getD_some] at hxy ⊢
      rw [Mgr.requiredTiles_zoom0] at hxy
      simp only [List.mem_singleton] at hp hxy
      subst hp
      subst hxy
      rfl)

/-- **C10.** `download_region` sets `is_complete = True` unconditionally
after the provider loop (`src/services/tile_manager.py`, lines 56-58):
for every existing region and every fetch behaviour the returned
database holds the region with `is_complete = true`; and this does not
imply completeness — a concrete run whose only fetch fails still ends
with `is_complete = true` while `downloaded_tiles = 0 ≠ 1 = total_tiles`
and the sole required tile is not READY. -/
theorem c10_is_complete_unconditional (fetch : Mgr.Fetch) (rid : ℕ)
    (provs : List ℕ) (zoomOpt : Option ℕ) (db : Mgr.DB)
    (region : Mgr.RegionRec)
    (hfind : Mgr.findRegion db rid = some region) :
    (∃ out r2, Mgr.download_region fetch rid provs zoomOpt db = .ok out ∧
      Mgr.findRegion out.db rid = some r2 ∧ r2.isComplete = true) ∧
    (∃ out r2, Mgr.download_region
        (fun _ _ _ _ => Mgr.FetchOut.failure "net down") 1 [0] (some 0)
        ⟨[⟨1, 0, 0, 0, 0, some 0, 0, 0, false⟩], []⟩ = .ok out ∧
      Mgr.findRegion out.db 1 = some r2 ∧ r2.isComplete = true ∧
      r2.downloadedTiles = 0 ∧ r2.totalTiles = 1 ∧
      Mgr.tileReady out.db 0 (0, 0) 0 = false) := by
  constructor
  · have hrid : region.id = rid := Mgr.regionId_of_findRegion hfind
    have hex : (Mgr.findRegion db rid).isSome := by
      rw [hfind]
      rfl
    have hexP := Mgr.provsFold_findRegion fetch
      (zoomOpt.getD (region.targetZoom.getD 16)) provs region db hrid hex
    have hpres := Mgr.provsFold_region_pres fetch
      (zoomOpt.getD (region.targetZoom.getD 16)) provs region db
    refine ⟨_, { (Mgr.provsFold fetch
        (zoomOpt.getD (region.targetZoom.getD 16)) provs region db).region
        with isComplete := true },
      Mgr.download_region_some fetch rid provs zoomOpt db hfind, ?_, rfl⟩
    exact Mgr.findRegion_setRegion_same _ (by
      show (Mgr.provsFold fetch (zoomOpt.getD (region.targetZoom.getD 16))
        provs region db).region.id = rid
      rw [hpres.1, hrid]) hexP
  · refine ⟨⟨⟨[⟨1, 0, 0, 0, 0, some 0, 1, 0, true⟩],
        [⟨0, 1, 0, 0, 0, .error, some "net down"⟩]⟩, 1,
        [((0, 0, 0, 0), .downloading), ((0, 0, 0, 0), .error)]⟩,
      ⟨1, 0, 0, 0, 0, some 0, 1, 0, true⟩, ?_, rfl, rfl, rfl, rfl, rfl⟩
    simp [Mgr.download_region, Mgr.findRegion, Mgr.provsFold,
      Mgr.download_region_from_provider, Mgr.requiredTiles_zoom0,
      Mgr.run_tiles, Mgr.download_tile, Mgr.findTile, Mgr.setRegion,
      Mgr.updTile, Mgr.keyMatch]

/-- Witness for `c10_is_complete_unconditional`: the all-failing run
itself — the region exists, the call returns, and `is_complete` is true
despite zero downloaded tiles. -/
theorem c10_is_complete_unconditional_witness :
    (∃ out r2, Mgr.download_region
        (fun _ _ _ _ => Mgr.FetchOut.failure "net down") 1 [0] (some 0)
        ⟨[⟨1, 0, 0, 0, 0, some 0, 0, 0, false⟩], []⟩ = .ok out ∧
      Mgr.findRegion out.db 1 = some r2 ∧ r2.isComplete = true) ∧
    (∃ out r2, Mgr.download_region
        (fun _ _ _ _ => Mgr.FetchOut.failure "net down") 1 [0] (some 0)
        ⟨[⟨1, 0, 0, 0, 0, some 0, 0, 0, false⟩], []⟩ = .ok out ∧
      Mgr.findRegion out.db 1 = some r2 ∧ r2.isComplete = true ∧
      r2.downloadedTiles = 0 ∧ r2.totalTiles = 1 ∧
      Mgr.tileReady out.db 0 (0, 0) 0 = false) :=
  c10_is_complete_unconditional
    (fun _ _ _ _ => Mgr.FetchOut.failure "net down") 1 [0] (some 0)
    ⟨[⟨1, 0, 0, 0, 0, some 0, 0, 0, false⟩], []⟩
    ⟨1, 0, 0, 0, 0, some 0, 0, 0, false⟩ rfl

/-- **C1.** Refuted: `_download_region_from_provider` executes
`region.downloaded_tiles = success_count` — an assignment, not an
accumulation — so each provider pass overwrites the previous count.
After a two-provider run in which each provider successfully downloads
the single required tile, the region's `downloaded_tiles` is 1 while the
database holds 2 READY tiles for the requested providers. -/
theorem c1_overwrite_not_aggregate :
    ∃ out r2, Mgr.download_region (fun _ _ _ _ => Mgr.FetchOut.success) 1
        [0, 1] (some 0)
        ⟨[⟨1, 0, 0, 0, 0, some 0, 0, 0, false⟩], []⟩ = .ok out ∧
      Mgr.findRegion out.db 1 = some r2 ∧
      r2.downloadedTiles = 1 ∧ Mgr.readyCount out.db = 2 ∧
      r2.downloadedTiles ≠ Mgr.readyCount out.db := by
  refine ⟨⟨⟨[⟨1, 0, 0, 0, 0, some 0, 1, 1, true⟩],
      [⟨0, 1, 0, 0, 0, .ready, none⟩, ⟨1, 1, 0, 0, 0, .ready, none⟩]⟩, 2,
      [((0, 0, 0, 0), .downloading), ((0, 0, 0, 0), .ready),
       ((1, 0, 0, 0), .downloading), ((1, 0, 0, 0), .ready)]⟩,
    ⟨1, 0, 0, 0, 0, some 0, 1, 1, true⟩, ?_, rfl, rfl, rfl, by decide⟩
  simp [Mgr.download_region, Mgr.findRegion, Mgr.provsFold,
    Mgr.download_region_from_provider, Mgr.requiredTiles_zoom0,
    Mgr.run_tiles, Mgr.download_tile, Mgr.findTile, Mgr.setRegion,
    Mgr.updTile, Mgr.keyMatch]

namespace Cmp

theorem zipWith_self {α β : Type} (f : α → α → β) (l : List α) :
    List.zipWith f l l = l.map fun a => f a a := by
  induction l with
  | nil => rfl
  | cons a t ih => simp [List.zipWith_cons_cons, ih]

theorem mse_self (a : Img) : mse a a = 0 := by
  unfold mse mean
  rw [zipWith_self]
  have h : ((channels a).map fun u => (u - u) ^ 2) =
      (channels a).map fun _ => (0 : ℚ) := by
    refine List.map_congr_left ?_
    intro u _
    ring
  rw [h]
  simp

theorem psnr_top_iff (logTerm : ℚ → ℚ) (a b : Img) :
    psnr logTerm a b = ⊤ ↔ mse a b = 0 := by
  unfold psnr
  constructor
  · intro h
    by_contra hm
    rw [if_neg hm] at h
    exact (WithTop.coe_ne_top h).elim
  · intro h
    rw [if_pos h]

end Cmp

namespace Cmp

theorem covar_self (g : List ℚ) : covar g g = variance g := by
  unfold covar variance
  rw [zipWith_self]
  congr 1
  refine List.map_congr_left ?_
  intro u _
  ring

theorem variance_nonneg (g : List ℚ) : 0 ≤ variance g := by
  unfold variance mean
  apply div_nonneg
  · apply List.sum_nonneg
    intro x hx
    obtain ⟨u, _, rfl⟩ := List.mem_map.mp hx
    positivity
  · positivity

theorem ssim_self (a : Img) : ssim a a = 1 := by
  simp only [ssim]
  rw [covar_self]
  have hnum : (2 * mean (gray a) * mean (gray a) + c1) *
      (2 * variance (gray a) + c2) =
      (mean (gray a) ^ 2 + mean (gray a) ^ 2 + c1) *
      (variance (gray a) + variance (gray a) + c2) := by
    ring
  rw [hnum]
  apply div_self
  apply ne_of_gt
  apply mul_pos
  · have h1 : (0 : ℚ) < c1 := by norm_num [c1]
    nlinarith [sq_nonneg (mean (gray a))]
  · have h2 : (0 : ℚ) < c2 := by norm_num [c2]
    have := variance_nonneg (gray a)
    linarith

end Cmp

namespace Cmp

theorem ratSqrt_mul_self (q : ℚ) (hq : 0 ≤ q) : ratSqrt (q * q) = q := by
  unfold ratSqrt
  rw [Rat.mul_self_num, Rat.mul_self_den]
  have hn : (0 : ℤ) ≤ q.num := Rat.num_nonneg.mpr hq
  have h1 : (q.num * q.num).toNat = q.num.toNat * q.num.toNat := by
    rw [← Int.toNat_of_nonneg hn]
    exact Int.toNat_natCast _
  rw [h1, Nat.sqrt_eq, Nat.sqrt_eq]
  rw [show ((q.num.toNat : ℚ)) = ((q.num : ℚ)) by
    rw [← Int.toNat_of_nonneg hn]
    push_cast
    rfl]
  exact Rat.num_div_den q

end Cmp

namespace Cmp

theorem sum_sq_dev_nonneg (l : List ℚ) (m : ℚ) :
    0 ≤ (l.map fun u => (u - m) ^ 2).sum := by
  apply List.sum_nonneg
  intro x hx
  obtain ⟨u, _, rfl⟩ := List.mem_map.mp hx
  positivity

theorem histCorr_self_num (a : Img) :
    (List.zipWith (fun u v => (u - mean (nhist (gray a))) *
        (v - mean (nhist (gray a)))) (nhist (gray a)) (nhist (gray a))).sum =
      ((nhist (gray a)).map fun u => (u - mean (nhist (gray a))) ^ 2).sum := by
  rw [zipWith_self]
  congr 1
  refine List.map_congr_left ?_
  intro u _
  ring

theorem histCorr_self (a : Img) :
    histogram_correlation a a =
      if ((nhist (gray a)).map fun u => (u - mean (nhist (gray a))) ^ 2).sum
          = 0 then 0 else 1 := by
  simp only [histogram_correlation]
  rw [histCorr_self_num]
  by_cases hS : ((nhist (gray a)).map fun u =>
      (u - mean (nhist (gray a))) ^ 2).sum = 0
  · rw [if_pos hS, hS]
    rw [show ratSqrt (0 * 0) = 0 from ratSqrt_mul_self 0 le_rfl]
    simp
  · rw [if_neg hS]
    have hpos : 0 ≤ ((nhist (gray a)).map fun u =>
        (u - mean (nhist (gray a))) ^ 2).sum :=
      sum_sq_dev_nonneg _ _
    rw [ratSqrt_mul_self _ hpos, if_neg hS, div_self hS]

end Cmp

namespace Cmp

theorem gray_ramp :
    gray ((List.range 256).map fun (i : ℕ) => ((i, i, i) : Pixel)) =
      (List.range 256).map fun (i : ℕ) => (i : ℚ) := by
  unfold gray
  rw [List.map_map]
  refine List.map_congr_left ?_
  intro i _
  show ((i : ℚ) + (i : ℚ) + (i : ℚ)) / 3 = (i : ℚ)
  ring

theorem hist_ramp :
    hist ((List.range 256).map fun (i : ℕ) => (i : ℚ)) = List.replicate 256 1 := by
  unfold hist
  rw [show (List.replicate 256 (1 : ℕ)) =
      (List.range 256).map fun _ => (1 : ℕ) by
    simp]
  refine List.map_congr_left ?_
  intro j hj
  rw [List.countP_map]
  have hc : ∀ i ∈ List.range 256,
      (((fun u => ⌊u⌋ == ((j : ℕ) : ℤ)) ∘ fun i => ((i : ℕ) : ℚ)) i = true ↔
        (i == j) = true) := by
    intro i _
    show ((⌊((i : ℕ) : ℚ)⌋ == ((j : ℕ) : ℤ)) = true ↔ (i == j) = true)
    rw [Int.floor_natCast]
    simp
  rw [List.countP_congr hc]
  show List.count j (List.range 256) = 1
  exact List.count_eq_one_of_mem (List.nodup_range 256) hj

theorem nhist_ramp :
    nhist ((List.range 256).map fun (i : ℕ) => (i : ℚ)) =
      List.replicate 256 (1 / 256) := by
  unfold nhist
  rw [hist_ramp, List.map_replicate, List.sum_replicate]
  norm_num

theorem mean_nhist_ramp :
    mean (List.replicate 256 ((1 : ℚ) / 256)) = 1 / 256 := by
  unfold mean
  rw [List.sum_replicate, List.length_replicate]
  norm_num

theorem sum_sq_dev_ramp :
    ((List.replicate 256 ((1 : ℚ) / 256)).map fun u =>
      (u - mean (List.replicate 256 ((1 : ℚ) / 256))) ^ 2).sum = 0 := by
  rw [mean_nhist_ramp, List.map_replicate]
  norm_num [List.sum_replicate]

end Cmp

/-- **C9, counterexample.** `compare(img, img)` does not always return
`histogram_correlation = 1.0`: on the 256-pixel grayscale ramp (pixel
`i` is `(i, i, i)`) the normalized histogram is uniform, the Pearson
denominator is zero, and `_histogram_correlation` returns its `0.0`
fallback — comparing the image with itself scores 0, not 1. -/
theorem c9_counterexample :
    (Cmp.compare (fun _ => 0)
        ((List.range 256).map fun (i : ℕ) => ((i, i, i) : Cmp.Pixel))
        ((List.range 256).map fun (i : ℕ) =>
          ((i, i, i) : Cmp.Pixel))).histCorrVal = 0 ∧
    (Cmp.compare (fun _ => 0)
        ((List.range 256).map fun (i : ℕ) => ((i, i, i) : Cmp.Pixel))
        ((List.range 256).map fun (i : ℕ) =>
          ((i, i, i) : Cmp.Pixel))).histCorrVal ≠ 1 := by
  have h : (Cmp.compare (fun _ => 0)
      ((List.range 256).map fun (i : ℕ) => ((i, i, i) : Cmp.Pixel))
      ((List.range 256).map fun (i : ℕ) =>
        ((i, i, i) : Cmp.Pixel))).histCorrVal = 0 := by
    show Cmp.histogram_correlation
      ((List.range 256).map fun (i : ℕ) => ((i, i, i) : Cmp.Pixel))
      ((List.range 256).map fun (i : ℕ) => ((i, i, i) : Cmp.Pixel)) = 0
    rw [Cmp.histCorr_self, Cmp.gray_ramp, Cmp.nhist_ramp,
      if_pos Cmp.sum_sq_dev_ramp]
  refine ⟨h, ?_⟩
  rw [h]
  norm_num

/-- **C9, amended.** For images of equal dimensions `psnr` is the
infinity sentinel exactly when `mse = 0`; comparing a nonempty image
with itself yields `mse = 0`, `psnr = ∞` and `ssim = 1` exactly; and
`histogram_correlation` of the self-comparison is 1 when the normalized
histogram is not uniform (nonzero Pearson denominator), but 0 — the
`denominator == 0` fallback — when it is uniform (see the
counterexample). -/
theorem c9_compare_equal_and_self (logTerm : ℚ → ℚ) (a b : Cmp.Img)
    (hlen : a.length = b.length) (hne : a ≠ []) :
    ((Cmp.compare logTerm a b).psnrVal = ⊤ ↔
      (Cmp.compare logTerm a b).mseVal = 0) ∧
    (Cmp.compare logTerm a a).mseVal = 0 ∧
    (Cmp.compare logTerm a a).psnrVal = ⊤ ∧
    (Cmp.compare logTerm a a).ssimVal = 1 ∧
    (((Cmp.nhist (Cmp.gray a)).map fun u =>
        (u - Cmp.mean (Cmp.nhist (Cmp.gray a))) ^ 2).sum ≠ 0 →
      (Cmp.compare logTerm a a).histCorrVal = 1) ∧
    (((Cmp.nhist (Cmp.gray a)).map fun u =>
        (u - Cmp.mean (Cmp.nhist (Cmp.gray a))) ^ 2).sum = 0 →
      (Cmp.compare logTerm a a).histCorrVal = 0) := by
  refine ⟨Cmp.psnr_top_iff logTerm a b, Cmp.mse_self a, ?_,
    Cmp.ssim_self a, ?_, ?_⟩
  · show Cmp.psnr logTerm a a = ⊤
    rw [Cmp.psnr_top_iff]
    exact Cmp.mse_self a
  · intro h
    show Cmp.histogram_correlation a a = 1
    rw [Cmp.histCorr_self, if_neg h]
  · intro h
    show Cmp.histogram_correlation a a = 0
    rw [Cmp.histCorr_self, if_pos h]

/-- Witness for `c9_compare_equal_and_self`: the single-pixel black
image compared with itself. -/
theorem c9_compare_equal_and_self_witness :
    ((Cmp.compare (fun _ => 0) [((0 : ℕ), (0 : ℕ), (0 : ℕ))]
        [((0 : ℕ), (0 : ℕ), (0 : ℕ))]).psnrVal = ⊤ ↔
      (Cmp.compare (fun _ => 0) [((0 : ℕ), (0 : ℕ), (0 : ℕ))]
        [((0 : ℕ), (0 : ℕ), (0 : ℕ))]).mseVal = 0) ∧
    (Cmp.compare (fun _ => 0) [((0 : ℕ), (0 : ℕ), (0 : ℕ))]
      [((0 : ℕ), (0 : ℕ), (0 : ℕ))]).mseVal = 0 ∧
    (Cmp.compare (fun _ => 0) [((0 : ℕ), (0 : ℕ), (0 : ℕ))]
      [((0 : ℕ), (0 : ℕ), (0 : ℕ))]).psnrVal = ⊤ ∧
    (Cmp.compare (fun _ => 0) [((0 : ℕ), (0 : ℕ), (0 : ℕ))]
      [((0 : ℕ), (0 : ℕ), (0 : ℕ))]).ssimVal = 1 ∧
    (((Cmp.nhist (Cmp.gray [((0 : ℕ), (0 : ℕ), (0 : ℕ))])).map fun u =>
        (u - Cmp.mean (Cmp.nhist
          (Cmp.gray [((0 : ℕ), (0 : ℕ), (0 : ℕ))]))) ^ 2).sum ≠ 0 →
      (Cmp.compare (fun _ => 0) [((0 : ℕ), (0 : ℕ), (0 : ℕ))]
        [((0 : ℕ), (0 : ℕ), (0 : ℕ))]).histCorrVal = 1) ∧
    (((Cmp.nhist (Cmp.gray [((0 : ℕ), (0 : ℕ), (0 : ℕ))])).map fun u =>
        (u - Cmp.mean (Cmp.nhist
          (Cmp.gray [((0 : ℕ), (0 : ℕ), (0 : ℕ))]))) ^ 2).sum = 0 →
      (Cmp.compare (fun _ => 0) [((0 : ℕ), (0 : ℕ), (0 : ℕ))]
        [((0 : ℕ), (0 : ℕ), (0 : ℕ))]).histCorrVal = 0) :=
  c9_compare_equal_and_self (fun _ => 0) [((0 : ℕ), (0 : ℕ), (0 : ℕ))]
    [((0 : ℕ), (0 : ℕ), (0 : ℕ))] rfl (by decide)
